import Mathlib

/-!
DriveCatalogue — verification of the scan-and-catalog engine

Shallow embedding of `DriveCatalogue_V5.py` (the single source file of the
repository) and proofs about it.  The embedding covers:

* the Catalog Store (`Database`): schema initialisation, root registration,
  config persistence, batch insert, search and count queries;
* the Scanner (`ScanWorker.run`): directory traversal with hidden-entry
  skipping, ignore-pattern filtering, per-file error tolerance, batched
  writes, cooperative cancellation and the pause wait loop;
* the Job Queue head (`QueueTab.start`).

Machine integers do not overflow in the source (Python integers are
unbounded), so sizes and counters are `Nat` and timestamps are `Int`.
Wall-clock timestamps (`datetime.utcnow()`), logging, and Qt plumbing are
not modelled: they do not affect any verified property.
-/

namespace DriveCatalogue

/-! ## ASCII case folding

SQLite's default `LIKE` is case-insensitive for the ASCII range only, and
`fnmatch.fnmatch` (used by the scanner, which the source runs on Windows)
normalises case on both arguments.  Both are modelled with ASCII-only
lowercasing. -/

def asciiLower (c : Char) : Char :=
  if 'A' ≤ c ∧ c ≤ 'Z' then Char.ofNat (c.toNat + 32) else c

def lowerL (s : List Char) : List Char := s.map asciiLower

/-! ## SQL `LIKE` matching

`Database.search_files` and `Database.count_search` build `LIKE` clauses
with the patterns `%{name_sub}%` and `%.{extension}`.  `likeMatchCore`
implements SQLite's default `LIKE` semantics: `%` matches any sequence,
`_` matches any single character, and ordinary characters compare after
ASCII case folding (no `ESCAPE` clause is used by the source). -/

def likeMatchCore : List Char → List Char → Bool
  | [], [] => true
  | [], _ :: _ => false
  | '%' :: ps, s =>
    likeMatchCore ps s ||
      (match s with
       | [] => false
       | _ :: s' => likeMatchCore ('%' :: ps) s')
  | '_' :: ps, _ :: s => likeMatchCore ps s
  | _ :: _, [] => false
  | p :: ps, c :: s => (asciiLower p == asciiLower c) && likeMatchCore ps s

def likeMatch (pat s : String) : Bool := likeMatchCore pat.data s.data

/-! ## Executable substring / suffix predicates

These are the spec-side matching notions ("substring match", "suffix
match") used to compare against the `LIKE`-based behaviour of the code. -/

def isPrefB : List Char → List Char → Bool
  | [], _ => true
  | _ :: _, [] => false
  | a :: as, b :: bs => (a == b) && isPrefB as bs

def isSubLB (a : List Char) : List Char → Bool
  | [] => isPrefB a []
  | b :: bs => isPrefB a (b :: bs) || isSubLB a bs

def isSuffB (a : List Char) : List Char → Bool
  | [] => a == ([] : List Char)
  | b :: bs => (a == b :: bs) || isSuffB a bs

/-! ## `fnmatch` glob matching

`ScanWorker.run` skips a file when `fnmatch.fnmatch(f, pat)` holds for some
ignore pattern.  `fnmatch` case-normalises both arguments (the source runs
on Windows, where `os.path.normcase` lowercases) and then matches the glob:
`*` any sequence, `?` any character, `[...]` a character class (`[!...]`
negated, `x-y` ranges, a leading `]` is a literal member, an unclosed `[`
is a literal `[`). -/

/-- Scan for the closing `]` of a character class; returns the class body
and the remainder of the pattern. -/
def findRBrack : List Char → Option (List Char × List Char)
  | [] => none
  | ']' :: rest => some ([], rest)
  | c :: rest => (findRBrack rest).map (fun br => (c :: br.1, br.2))

/-- Split a class body off the characters following `[` (after any `!`);
a `]` in first position is a literal member of the class. -/
def splitClassBody : List Char → Option (List Char × List Char)
  | ']' :: rest => (findRBrack rest).map (fun br => (']' :: br.1, br.2))
  | l => findRBrack l

/-- Regex character-class semantics: `x-y` is a codepoint range, a `-` in
first or last position is a literal. -/
def matchClass : List Char → Char → Bool
  | [], _ => false
  | x :: '-' :: y :: rest, c => (x ≤ c && c ≤ y) || matchClass rest c
  | x :: rest, c => (x == c) || matchClass rest c

/-- One compiled element of a glob pattern. -/
inductive GlobTok where
  | lit (c : Char)
  | anyChar
  | anySeq
  | cls (neg : Bool) (body : List Char)
deriving DecidableEq

def compileGlob : List Char → List GlobTok
  | [] => []
  | '*' :: ps => .anySeq :: compileGlob ps
  | '?' :: ps => .anyChar :: compileGlob ps
  | '[' :: ps =>
    match hn : ps with
    | '!' :: ps' =>
      match hs : splitClassBody ps' with
      | some (body, rest) => .cls true body :: compileGlob rest
      | none => .lit '[' :: compileGlob ps
    | _ =>
      match hs : splitClassBody ps with
      | some (body, rest) => .cls false body :: compileGlob rest
      | none => .lit '[' :: compileGlob ps
  | p :: ps => .lit p :: compileGlob ps
termination_by l => l.length
decreasing_by
  all_goals simp_all
  all_goals
    (have key : ∀ (l b r : List Char), findRBrack l = some (b, r) → r.length < l.length := by
      intro l
      induction l with
      | nil => intro b r h; simp [findRBrack] at h
      | cons c rest ih =>
        intro b r h
        rw [findRBrack.eq_def] at h
        split at h
        · exact absurd h (by simp)
        · rename_i heq
          cases heq
          simp only [Option.some.injEq, Prod.mk.injEq] at h
          obtain ⟨h1, h2⟩ := h
          subst h2
          simp
        · rename_i hlit heq
          cases heq
          rcases Option.map_eq_some'.mp h with ⟨⟨b', r'⟩, hfind, hpair⟩
          cases hpair
          exact Nat.lt_trans (ih _ _ hfind) (Nat.lt_succ_self _)
     have key2 : ∀ (l b r : List Char), splitClassBody l = some (b, r) → r.length < l.length := by
      intro l b r h
      rw [splitClassBody.eq_def] at h
      split at h
      · rcases Option.map_eq_some'.mp h with ⟨⟨b', r'⟩, hfind, hpair⟩
        cases hpair
        exact Nat.lt_trans (key _ _ _ hfind) (Nat.lt_succ_self _)
      · exact key _ _ _ h
     have := key2 _ _ _ hs
     omega)

def globMatchToks : List GlobTok → List Char → Bool
  | [], [] => true
  | [], _ :: _ => false
  | .anySeq :: ts, s =>
    globMatchToks ts s ||
      (match s with
       | [] => false
       | _ :: s' => globMatchToks (.anySeq :: ts) s')
  | .anyChar :: ts, _ :: s => globMatchToks ts s
  | .lit p :: ts, c :: s => (p == c) && globMatchToks ts s
  | .cls neg body :: ts, c :: s => (matchClass body c != neg) && globMatchToks ts s
  | _ :: _, [] => false

/-- `fnmatch.fnmatch(name, pat)` as used on a file's base name (never a
path, so separator normalisation is irrelevant). -/
def fnmatchB (name pat : String) : Bool :=
  globMatchToks (compileGlob (lowerL pat.data)) (lowerL name.data)

/-! ## Catalog Store (`Database`)

The store is modelled as the contents of the three tables.  `id` columns
are `Nat`; nullable columns are `Option`.  Config values are modelled as
JSON values directly: `set_config` stores `json.dumps(value)` and
`get_config` returns `json.loads` of the stored text, and the `json`
library round-trips JSON values, so the serialisation step is the
identity on the modelled value type.  Wall-clock columns
(`first_seen_ts`, `last_scan_ts`), which no claim depends on, are not
modelled. -/

/-- A JSON-serialisable value (`json.dumps`/`json.loads`). -/
inductive Json where
  | null
  | bool (b : Bool)
  | num (n : Int)
  | str (s : String)
  | arr (xs : List Json)
  | obj (kvs : List (String × Json))

/-- A row of the `roots` table (`alias TEXT UNIQUE NOT NULL`). -/
structure RootRow where
  id : Nat
  «alias» : String
  root_path : String
  volume_serial : Option Nat
deriving DecidableEq

/-- A row of the `files` table. -/
structure FileRow where
  root_id : Nat
  file_name : String
  relative_path : String
  size : Nat
  modified_time : Int
deriving DecidableEq

structure Store where
  roots : List RootRow
  files : List FileRow
  config : List (String × Json)

/-- `sqlite3.IntegrityError` (UNIQUE constraint violation on insert). -/
inductive DBError where
  | integrityError
deriving DecidableEq

/-- `Database.add_root`: an unconditional `INSERT INTO roots(alias, ...)`.
The UNIQUE constraint on `alias` makes the insert raise `IntegrityError`
when the alias is already registered; otherwise SQLite assigns the next
rowid. -/
def Database.add_root (st : Store) («alias» path : String) (volume_serial : Option Nat) :
    Except DBError (Nat × Store) :=
  if st.roots.any (fun r => r.«alias» == «alias») then
    .error .integrityError
  else
    let rid := (st.roots.map RootRow.id).foldr Nat.max 0 + 1
    .ok (rid, { st with
      roots := st.roots ++
        [{ id := rid, «alias» := «alias», root_path := path, volume_serial := volume_serial }] })

/-- `Database.get_root_by_alias`. -/
def Database.get_root_by_alias (st : Store) («alias» : String) : Option RootRow :=
  st.roots.find? (fun r => r.«alias» == «alias»)

/-- `Database.get_config`: `SELECT value FROM app_config WHERE key=?`,
`json.loads` of the row if present, else the supplied default. -/
def Database.get_config (st : Store) (key : String) (default : Json) : Json :=
  match st.config.find? (fun kv => kv.1 == key) with
  | some kv => kv.2
  | none => default

/-- `Database.set_config`: `REPLACE INTO app_config(key,value)` — the SQLite
`REPLACE` deletes any row conflicting on the primary key `key` and inserts
the new row. -/
def Database.set_config (st : Store) (key : String) (value : Json) : Store :=
  { st with config := st.config.filter (fun kv => kv.1 != key) ++ [(key, value)] }

/-- The conjunction of `WHERE` clauses built identically by
`Database.search_files` and `Database.count_search`: each optional filter
contributes one `AND` clause when supplied (`name_sub`/`extension` are
tested for Python truthiness, i.e. non-empty; `min_size`/`max_size` for
`is not None`). -/
def rowPred (name_sub : String) (min_size max_size : Option Nat) (extension : String)
    (fname : String) (size : Nat) : Bool :=
  (if name_sub ≠ "" then likeMatch ("%" ++ name_sub ++ "%") fname else true) &&
  (match min_size with | some v => decide (v ≤ size) | none => true) &&
  (match max_size with | some v => decide (size ≤ v) | none => true) &&
  (if extension ≠ "" then likeMatch ("%." ++ extension) fname else true)

/-- One row of the `search_files` result set:
`f.file_name, f.size, f.modified_time, (r.root_path || '\' || f.relative_path), r.alias`. -/
structure SearchRow where
  file_name : String
  size : Nat
  modified_time : Int
  full_path : String
  «alias» : String
deriving DecidableEq

/-- The inner join `files f JOIN roots r ON f.root_id = r.id`. -/
def joinRows (st : Store) : List SearchRow :=
  (st.files.map (fun f =>
    (st.roots.filter (fun r => r.id == f.root_id)).map (fun r =>
      { file_name := f.file_name, size := f.size, modified_time := f.modified_time,
        full_path := r.root_path ++ "\\" ++ f.relative_path, «alias» := r.«alias» }))).flatten

/-- Insertion step of `ORDER BY modified_time DESC`.  SQLite fixes no tie
order for equal keys; this sort is one conforming order. -/
def insertDesc (x : SearchRow) : List SearchRow → List SearchRow
  | [] => [x]
  | y :: ys => if y.modified_time ≤ x.modified_time then x :: y :: ys else y :: insertDesc x ys

def sortDesc : List SearchRow → List SearchRow
  | [] => []
  | x :: xs => insertDesc x (sortDesc xs)

/-- `Database.search_files`: join, conjunctive filters, `ORDER BY
modified_time DESC`, then `LIMIT ? OFFSET ?`. -/
def Database.search_files (st : Store) (name_sub : String) (min_size max_size : Option Nat)
    (extension : String) (limit offset : Nat) : List SearchRow :=
  ((sortDesc ((joinRows st).filter
      (fun row => rowPred name_sub min_size max_size extension row.file_name row.size))).drop
    offset).take limit

/-- `Database.count_search`: `SELECT COUNT(*) FROM files WHERE ...` with the
same clauses — note: over `files` alone, without the join. -/
def Database.count_search (st : Store) (name_sub : String) (min_size max_size : Option Nat)
    (extension : String) : Nat :=
  (st.files.filter (fun f => rowPred name_sub min_size max_size extension f.file_name f.size)).length

/-! ### Schema initialisation (`Database._init_db`)

The schema is modelled as the list of schema-object names present in the
store file, alongside the table contents.  `CREATE TABLE IF NOT EXISTS`
creates an empty table only when the object is absent; `CREATE INDEX IF
NOT EXISTS` adds the object name only.  The `PRAGMA` statements configure
the connection and do not change the persisted state. -/

structure SchemaState where
  objects : List String
  roots : List RootRow
  files : List FileRow
  config : List (String × Json)

def createRootsTable (s : SchemaState) : SchemaState :=
  if "roots" ∈ s.objects then s
  else { s with objects := s.objects ++ ["roots"], roots := [] }

def createFilesTable (s : SchemaState) : SchemaState :=
  if "files" ∈ s.objects then s
  else { s with objects := s.objects ++ ["files"], files := [] }

def createIndexIfAbsent (name : String) (s : SchemaState) : SchemaState :=
  if name ∈ s.objects then s else { s with objects := s.objects ++ [name] }

def createConfigTable (s : SchemaState) : SchemaState :=
  if "app_config" ∈ s.objects then s
  else { s with objects := s.objects ++ ["app_config"], config := [] }

/-- `Database._init_db`, the body of `openOrCreate`: the sequence of
`CREATE ... IF NOT EXISTS` statements in source order. -/
def Database.init_db (s : SchemaState) : SchemaState :=
  createConfigTable
    (createIndexIfAbsent "idx_files_mtime"
      (createIndexIfAbsent "idx_files_size"
        (createIndexIfAbsent "idx_files_name"
          (createIndexIfAbsent "idx_files_root"
            (createFilesTable (createRootsTable s))))))

/-! ## Job Queue (`QueueTab`) -/

/-- The queue list items carry `(path, alias)` in their user data; at most
one `ScanWorker` is active (`current_worker`). -/
structure QueueTab where
  pending : List (String × String)
  hasWorker : Bool

/-- Outcome of one `QueueTab.start()` call.  `raised` is an exception
propagating out of the slot (the store and the already-dequeued item list
are left as they were at the raise point). -/
inductive StartResult where
  | noop (db : Store) (q : QueueTab)
  | launched (db : Store) (q : QueueTab) (rootId : Nat)
  | raised (e : DBError) (db : Store) (q : QueueTab)

/-- `QueueTab.start`: no-op if a worker is active or the queue is empty;
otherwise dequeue the head item, call `Database.add_root` (an
unconditional insert), delete the root's files, and launch a worker. -/
def QueueTab.start (db : Store) (q : QueueTab) (volume_serial : Option Nat) : StartResult :=
  if q.hasWorker || q.pending.isEmpty then .noop db q
  else
    match q.pending with
    | [] => .noop db q
    | (path, «alias») :: rest =>
      match Database.add_root db «alias» path volume_serial with
      | .error e => .raised e db { q with pending := rest }
      | .ok (rid, db') =>
        .launched { db' with files := db'.files.filter (fun f => f.root_id != rid) }
          { pending := rest, hasWorker := true } rid

/-! ## Scanner (`ScanWorker`)

The filesystem under the scanned root is a finite tree.  A file's metadata
is `none` when `Path.stat()` raises for it (the per-file error case, which
the source logs and skips).  `os.walk` is modelled as the equivalent
top-down depth-first traversal; pruning `dirnames` in place before the
walk descends is modelled by not descending into pruned subdirectories.

Cancellation is asynchronous in the source (`cancel()` flips a flag read
by the worker thread).  Observationally, all that matters is which of the
worker's flag checks — one per directory (line 252) and one per file
(line 258) — see the flag as set, and that the flag is monotone (it is
never cleared).  `cancelAt = some n` means the flag reads true from the
`n`-th check on; `none` means it is never set.  The pause wait loop
(lines 273–274) only stalls the thread between files and writes nothing;
its liveness is modelled separately by `ScanWorker.pauseWait`.

Store failures are injected through `faults : Nat → Bool`: `faults i`
tells whether the `i`-th `insert_files_batch` call raises (disk full,
constraint violation, ...). -/

/-- One filesystem file: base name plus `stat` result (`none` = the
`stat()` call raises). -/
structure FSFile where
  name : String
  meta : Option (Nat × Int)
deriving DecidableEq

/-- One directory: name, the files directly inside, and subdirectories. -/
inductive FSTree where
  | dir (name : String) (files : List FSFile) (subdirs : List FSTree)

def FSTree.name : FSTree → String
  | .dir n _ _ => n

def FSTree.files : FSTree → List FSFile
  | .dir _ fs _ => fs

def FSTree.subdirs : FSTree → List FSTree
  | .dir _ _ ds => ds

/-- Python's `name.startswith('.')`: the first character is `'.'`. -/
def startsWithDot (s : String) : Bool :=
  match s.data with
  | [] => false
  | c :: _ => c == '.'

/-- `os.path.relpath(dirpath / f, root_path)` for a file `f` in the
directory whose path components below the root are `comps` (Windows
separator, as later joined by `search_files`). -/
def relPath (comps : List String) (fname : String) : String :=
  match comps with
  | [] => fname
  | _ => String.intercalate "\\" comps ++ "\\" ++ fname

/-- The `ScanWorker` constructor state: options frozen for one scan.  The
constructor strips each ignore pattern and drops the empty ones
(`[p.strip() for p in ignore_patterns if p.strip()]`). -/
structure ScanWorker where
  root_id : Nat
  follow_symlinks : Bool
  skip_hidden : Bool
  ignore_patterns : List String

def ScanWorker.make (root_id : Nat) (follow_symlinks skip_hidden : Bool)
    (ignore_patterns : List String) : ScanWorker :=
  { root_id := root_id, follow_symlinks := follow_symlinks, skip_hidden := skip_hidden,
    ignore_patterns :=
      ignore_patterns.filterMap (fun p => if p.trim = "" then none else some p.trim) }

/-- A store write performed by the scan. -/
inductive StoreAction where
  | insertFilesBatch (rows : List FileRow)
  | updateRootScan (root_id : Nat) (capacity free : Option Nat)
deriving DecidableEq

/-- Mutable state of one `ScanWorker.run` invocation.  `committed` is the
rows committed to the store so far, `log` the store actions in order,
`checks` the number of cancel-flag checks performed, `inserts` the number
of `insert_files_batch` calls attempted. -/
structure ScanState where
  total_files : Nat
  total_bytes : Nat
  batch : List FileRow
  committed : List FileRow
  log : List StoreAction
  events : List (Nat × Nat)
  checks : Nat
  inserts : Nat
deriving DecidableEq

def initScanState : ScanState :=
  { total_files := 0, total_bytes := 0, batch := [], committed := [], log := [],
    events := [], checks := 0, inserts := 0 }

/-- Whether the `i`-th cancel-flag check reads true. -/
def cancelSeen (cancelAt : Option Nat) (i : Nat) : Bool :=
  match cancelAt with
  | none => false
  | some n => decide (n ≤ i)

/-- The rows visible to readers plus the unflushed tail batch. -/
def dbRows (s : ScanState) : List FileRow := s.committed ++ s.batch

def sizeSum (rows : List FileRow) : Nat := (rows.map FileRow.size).sum

/-- The inner `for f in filenames` loop of `ScanWorker.run` (lines
257–276).  Per file: cancel check (break), ignore-pattern check
(continue), `stat` (a raise is logged and skipped), append to the batch,
bump the totals, flush the batch at 1000 rows (a store error there is
caught by the per-file `except` handler, which skips the `batch.clear()`
and the progress emit), then emit progress. -/
def ScanWorker.processFiles (w : ScanWorker) (faults : Nat → Bool) (cancelAt : Option Nat)
    (comps : List String) : List FSFile → ScanState → ScanState
  | [], s => s
  | f :: rest, s =>
    if cancelSeen cancelAt s.checks then { s with checks := s.checks + 1 }
    else
      let s := { s with checks := s.checks + 1 }
      if w.ignore_patterns.any (fun pat => fnmatchB f.name pat) then
        processFiles w faults cancelAt comps rest s
      else
        match f.meta with
        | none => processFiles w faults cancelAt comps rest s
        | some (sz, mt) =>
          let row : FileRow :=
            { root_id := w.root_id, file_name := f.name,
              relative_path := relPath comps f.name, size := sz, modified_time := mt }
          let s := { s with batch := s.batch ++ [row],
                            total_files := s.total_files + 1,
                            total_bytes := s.total_bytes + sz }
          if s.batch.length ≥ 1000 then
            if faults s.inserts then
              processFiles w faults cancelAt comps rest { s with inserts := s.inserts + 1 }
            else
              let s := { s with committed := s.committed ++ s.batch,
                                log := s.log ++ [StoreAction.insertFilesBatch s.batch],
                                batch := [], inserts := s.inserts + 1 }
              processFiles w faults cancelAt comps rest
                { s with events := s.events ++ [(s.total_files, s.total_bytes)] }
          else
            processFiles w faults cancelAt comps rest
              { s with events := s.events ++ [(s.total_files, s.total_bytes)] }

mutual

/-- The `os.walk` loop of `ScanWorker.run` (lines 251–276): per directory,
a cancel check, hidden filtering of files and (via `dirnames[:] = ...`
pruning) of subdirectories, the file loop, then descent. -/
def ScanWorker.scanDir (w : ScanWorker) (faults : Nat → Bool) (cancelAt : Option Nat)
    (comps : List String) : FSTree → ScanState → ScanState
  | .dir _ files subdirs, s =>
    if cancelSeen cancelAt s.checks then { s with checks := s.checks + 1 }
    else
      let s := { s with checks := s.checks + 1 }
      let files' := if w.skip_hidden then files.filter (fun f => !startsWithDot f.name) else files
      let s := ScanWorker.processFiles w faults cancelAt comps files' s
      ScanWorker.scanSubdirs w faults cancelAt comps subdirs s

def ScanWorker.scanSubdirs (w : ScanWorker) (faults : Nat → Bool) (cancelAt : Option Nat)
    (comps : List String) : List FSTree → ScanState → ScanState
  | [], s => s
  | t :: ts, s =>
    let s :=
      if w.skip_hidden && startsWithDot t.name then s
      else ScanWorker.scanDir w faults cancelAt (comps ++ [t.name]) t s
    ScanWorker.scanSubdirs w faults cancelAt comps ts s

end

/-- Outcome of `ScanWorker.run`: committed rows, store-action log, progress
events, and the terminal `finished` signal payload (`none` when an
exception escaped `run`, killing the thread before the emit). -/
structure ScanOutcome where
  committed : List FileRow
  log : List StoreAction
  events : List (Nat × Nat)
  finished : Option (Nat × Nat)
deriving DecidableEq

/-- `ScanWorker.run` (lines 240–280).  `usage` is the
`shutil.disk_usage` capture, `none` when it raises (capacity and free
are then both `NULL`).  After the walk: flush the tail batch if non-empty
(outside the per-file `try`, so a store error there propagates and the
thread dies), write the scan-completion record, emit `finished`. -/
def ScanWorker.run (w : ScanWorker) (faults : Nat → Bool) (cancelAt : Option Nat)
    (tree : FSTree) (usage : Option (Nat × Nat)) : ScanOutcome :=
  let s := ScanWorker.scanDir w faults cancelAt [] tree initScanState
  let capacity := usage.map Prod.fst
  let free := usage.map Prod.snd
  if s.batch.isEmpty then
    { committed := s.committed,
      log := s.log ++ [StoreAction.updateRootScan w.root_id capacity free],
      events := s.events, finished := some (s.total_files, s.total_bytes) }
  else if faults s.inserts then
    { committed := s.committed, log := s.log, events := s.events, finished := none }
  else
    { committed := s.committed ++ s.batch,
      log := s.log ++ [StoreAction.insertFilesBatch s.batch, StoreAction.updateRootScan w.root_id capacity free],
      events := s.events, finished := some (s.total_files, s.total_bytes) }

/-- The pause wait loop `while self._pause and not self._cancel:
msleep(200)` (lines 273–274), with the flags as functions of time; one
loop iteration advances time by one tick.  The `fuel` bound makes the
model total; the liveness theorem shows a fixed fuel suffices once the
cancel flag is set. -/
def ScanWorker.pauseWait (pause cancel : Nat → Bool) : Nat → Nat → Option Nat
  | t, 0 => if pause t && !cancel t then none else some t
  | t, fuel + 1 => if pause t && !cancel t then pauseWait pause cancel (t + 1) fuel else some t

/-! ### Derived filesystem transforms used to state the claims -/

mutual

/-- Remove from the tree every file whose base name matches `p` (used to
state that ignored files are skipped entirely). -/
def FSTree.dropFiles (p : FSFile → Bool) : FSTree → FSTree
  | .dir n fs ds => .dir n (fs.filter (fun f => !p f)) (FSTree.dropFilesForest p ds)

def FSTree.dropFilesForest (p : FSFile → Bool) : List FSTree → List FSTree
  | [] => []
  | t :: ts => FSTree.dropFiles p t :: FSTree.dropFilesForest p ts

end

mutual

/-- Prune every hidden entry: hidden files are removed and hidden
subdirectories are not kept at all. -/
def pruneHidden : FSTree → FSTree
  | .dir n fs ds => .dir n (fs.filter (fun f => !startsWithDot f.name)) (pruneForest ds)

def pruneForest : List FSTree → List FSTree
  | [] => []
  | t :: ts =>
    if startsWithDot t.name then pruneForest ts else pruneHidden t :: pruneForest ts

end

mutual

/-- All statable files of the tree in traversal order, as catalog rows
(the rows a full unfiltered scan records). -/
def allRows (rid : Nat) (comps : List String) : FSTree → List FileRow
  | .dir _ fs ds =>
    fs.filterMap (fun f =>
      f.meta.map (fun m =>
        { root_id := rid, file_name := f.name, relative_path := relPath comps f.name,
          size := m.1, modified_time := m.2 })) ++ allRowsForest rid comps ds

def allRowsForest (rid : Nat) (comps : List String) : List FSTree → List FileRow
  | [] => []
  | t :: ts => allRows rid (comps ++ [t.name]) t ++ allRowsForest rid comps ts

end

/-! ## Concrete instances used by counterexamples and witnesses -/

/-- A store in which the alias `"A"` is already registered as a Root. -/
def c1Store : Store :=
  { roots := [{ id := 1, «alias» := "A", root_path := "p", volume_serial := none }],
    files := [], config := [] }

/-- A queue whose head requests a scan for the already-registered alias
`"A"` (the daily-rescan trigger enqueues exactly such items). -/
def c1Queue : QueueTab := { pending := [("p", "A")], hasWorker := false }

/-- A fresh worker scanning root 1 with default options. -/
def w4 : ScanWorker := ScanWorker.make 1 false false []

/-- A root directory with two plain files. -/
def tree4 : FSTree := FSTree.dir "root" [⟨"a", some (5, 7)⟩, ⟨"b", some (6, 8)⟩] []

/-- A worker with the ignore pattern `*.tmp` configured (the constructor's
strip step leaves `"*.tmp"` unchanged, so the processed pattern list is
`["*.tmp"]`). -/
def w5 : ScanWorker :=
  { root_id := 1, follow_symlinks := false, skip_hidden := false, ignore_patterns := ["*.tmp"] }

/-- A root directory holding `a.tmp` (3 bytes) and `b.txt` (4 bytes). -/
def tree5 : FSTree := FSTree.dir "root" [⟨"a.tmp", some (3, 1)⟩, ⟨"b.txt", some (4, 2)⟩] []

/-- A worker with `skip_hidden` enabled and no ignore patterns. -/
def w9 : ScanWorker := ScanWorker.make 1 false true []

/-- A root directory holding a visible file, a hidden file, and a hidden
subdirectory with a file inside. -/
def tree9 : FSTree :=
  FSTree.dir "root" [⟨"a", some (10, 1)⟩, ⟨".h", some (5, 2)⟩]
    [FSTree.dir ".sub" [⟨"x", some (7, 3)⟩] []]

/-- The catalog row the scanner builds for the file `"f"` (2 bytes,
mtime 3) at the root of root 1. -/
def c2Row : FileRow :=
  { root_id := 1, file_name := "f", relative_path := "f", size := 2, modified_time := 3 }

/-- A scan state whose batch holds 999 rows, one short of the flush
threshold. -/
def c2State : ScanState :=
  { total_files := 999, total_bytes := 0,
    batch := List.replicate 999
      ({ root_id := 1, file_name := "x", relative_path := "x",
         size := 0, modified_time := 0 } : FileRow),
    committed := [], log := [], events := [], checks := 0, inserts := 0 }

/-- A store whose config table already holds the key `"settings"`. -/
def c8Store : Store :=
  { roots := [], files := [], config := [("settings", Json.null)] }

/-- A store holding one file row named `"ABC.TXT"`. -/
def c3Store : Store :=
  { roots := [{ id := 1, «alias» := "r", root_path := "C:", volume_serial := none }],
    files := [{ root_id := 1, file_name := "ABC.TXT", relative_path := "ABC.TXT",
                size := 5, modified_time := 10 }],
    config := [] }

/-! ## Scan-state invariants used to state the scanner claims -/

/-- The running totals agree with the rows handed to the store (committed
plus the unflushed tail). -/
def totalsInv (s : ScanState) : Prop :=
  s.total_files = (dbRows s).length ∧ s.total_bytes = sizeSum (dbRows s)

/-- Every row handed to the store satisfies `P`. -/
def rowsOk (P : FileRow → Prop) (s : ScanState) : Prop := ∀ r ∈ dbRows s, P r

/-- Every emitted progress event is the count and byte total of some list
of rows each satisfying `P`. -/
def eventsOk (P : FileRow → Prop) (s : ScanState) : Prop :=
  ∀ ev ∈ s.events, ∃ rows : List FileRow, (∀ r ∈ rows, P r) ∧ ev = (rows.length, sizeSum rows)

/-- The combined scan invariant. -/
def scanInv (P : FileRow → Prop) (s : ScanState) : Prop :=
  totalsInv s ∧ rowsOk P s ∧ eventsOk P s

/-! ## Spec-side search definitions (for claims C3 and C6)

`searchSpecCS` follows the spec sentence for `search` literally: filters
conjunctive, name a case-sensitive substring match, extension a
case-sensitive suffix match of `.extension`, ordered by `modified_time`
descending, paginated by limit/offset.  `searchSpecCI` is the amended
variant with ASCII-case-insensitive matching. -/

/-- `l` contains no SQL `LIKE` wildcard. -/
def noWildL (l : List Char) : Prop := ∀ c ∈ l, c ≠ '%' ∧ c ≠ '_'

/-- The claimed filter predicate: case-sensitive substring / suffix. -/
def specMatchCS (name_sub : String) (min_size max_size : Option Nat) (extension : String)
    (fname : String) (size : Nat) : Bool :=
  (if name_sub ≠ "" then isSubLB name_sub.data fname.data else true) &&
  (match min_size with | some v => decide (v ≤ size) | none => true) &&
  (match max_size with | some v => decide (size ≤ v) | none => true) &&
  (if extension ≠ "" then isSuffB ('.' :: extension.data) fname.data else true)

def searchSpecCS (st : Store) (name_sub : String) (min_size max_size : Option Nat)
    (extension : String) (limit offset : Nat) : List SearchRow :=
  ((sortDesc ((joinRows st).filter
      (fun row => specMatchCS name_sub min_size max_size extension row.file_name row.size))).drop
    offset).take limit

/-- The amended filter predicate: ASCII-case-insensitive substring / suffix. -/
def specMatchCI (name_sub : String) (min_size max_size : Option Nat) (extension : String)
    (fname : String) (size : Nat) : Bool :=
  (if name_sub ≠ "" then isSubLB (lowerL name_sub.data) (lowerL fname.data) else true) &&
  (match min_size with | some v => decide (v ≤ size) | none => true) &&
  (match max_size with | some v => decide (size ≤ v) | none => true) &&
  (if extension ≠ "" then isSuffB (lowerL ('.' :: extension.data)) (lowerL fname.data) else true)

def searchSpecCI (st : Store) (name_sub : String) (min_size max_size : Option Nat)
    (extension : String) (limit offset : Nat) : List SearchRow :=
  ((sortDesc ((joinRows st).filter
      (fun row => specMatchCI name_sub min_size max_size extension row.file_name row.size))).drop
    offset).take limit

/-! # Theorems -/

/-! ## Schema initialisation (claim C7) -/

theorem createRootsTable_objects_self (s : SchemaState) :
    "roots" ∈ (createRootsTable s).objects := by
  unfold createRootsTable
  split
  · assumption
  · simp

theorem createFilesTable_objects_self (s : SchemaState) :
    "files" ∈ (createFilesTable s).objects := by
  unfold createFilesTable
  split
  · assumption
  · simp

theorem createConfigTable_objects_self (s : SchemaState) :
    "app_config" ∈ (createConfigTable s).objects := by
  unfold createConfigTable
  split
  · assumption
  · simp

theorem createIndexIfAbsent_objects_self (name : String) (s : SchemaState) :
    name ∈ (createIndexIfAbsent name s).objects := by
  unfold createIndexIfAbsent
  split
  · assumption
  · simp

theorem createRootsTable_mono {a : String} {s : SchemaState} (h : a ∈ s.objects) :
    a ∈ (createRootsTable s).objects := by
  unfold createRootsTable
  split
  · exact h
  · simp [h]

theorem createFilesTable_mono {a : String} {s : SchemaState} (h : a ∈ s.objects) :
    a ∈ (createFilesTable s).objects := by
  unfold createFilesTable
  split
  · exact h
  · simp [h]

theorem createConfigTable_mono {a : String} {s : SchemaState} (h : a ∈ s.objects) :
    a ∈ (createConfigTable s).objects := by
  unfold createConfigTable
  split
  · exact h
  · simp [h]

theorem createIndexIfAbsent_mono (name : String) {a : String} {s : SchemaState}
    (h : a ∈ s.objects) : a ∈ (createIndexIfAbsent name s).objects := by
  unfold createIndexIfAbsent
  split
  · exact h
  · simp [h]

theorem createRootsTable_of_mem {s : SchemaState} (h : "roots" ∈ s.objects) :
    createRootsTable s = s := by
  unfold createRootsTable
  simp [h]

theorem createFilesTable_of_mem {s : SchemaState} (h : "files" ∈ s.objects) :
    createFilesTable s = s := by
  unfold createFilesTable
  simp [h]

theorem createConfigTable_of_mem {s : SchemaState} (h : "app_config" ∈ s.objects) :
    createConfigTable s = s := by
  unfold createConfigTable
  simp [h]

theorem createIndexIfAbsent_of_mem {name : String} {s : SchemaState}
    (h : name ∈ s.objects) : createIndexIfAbsent name s = s := by
  unfold createIndexIfAbsent
  simp [h]

/-- After `_init_db`, every schema object of the source schema exists. -/
theorem init_db_objects (s : SchemaState) :
    "roots" ∈ (Database.init_db s).objects ∧
    "files" ∈ (Database.init_db s).objects ∧
    "idx_files_root" ∈ (Database.init_db s).objects ∧
    "idx_files_name" ∈ (Database.init_db s).objects ∧
    "idx_files_size" ∈ (Database.init_db s).objects ∧
    "app_config" ∈ (Database.init_db s).objects ∧
    "idx_files_mtime" ∈ (Database.init_db s).objects := by
  unfold Database.init_db
  refine ⟨?_, ?_, ?_, ?_, ?_, ?_, ?_⟩
  · exact createConfigTable_mono (createIndexIfAbsent_mono _
      (createIndexIfAbsent_mono _ (createIndexIfAbsent_mono _ (createIndexIfAbsent_mono _
        (createFilesTable_mono (createRootsTable_objects_self s))))))
  · exact createConfigTable_mono (createIndexIfAbsent_mono _
      (createIndexIfAbsent_mono _ (createIndexIfAbsent_mono _ (createIndexIfAbsent_mono _
        (createFilesTable_objects_self _)))))
  · exact createConfigTable_mono (createIndexIfAbsent_mono _
      (createIndexIfAbsent_mono _ (createIndexIfAbsent_mono _
        (createIndexIfAbsent_objects_self _ _))))
  · exact createConfigTable_mono (createIndexIfAbsent_mono _
      (createIndexIfAbsent_mono _ (createIndexIfAbsent_objects_self _ _)))
  · exact createConfigTable_mono (createIndexIfAbsent_mono _
      (createIndexIfAbsent_objects_self _ _))
  · exact createConfigTable_objects_self _
  · exact createConfigTable_mono (createIndexIfAbsent_objects_self _ _)

/-- C7: `openOrCreate` is idempotent: re-running `_init_db` on an
already-initialised store file succeeds, is the identity on the schema
(so no schema object is duplicated), and preserves every Root, File and
Config row. -/
theorem c7_init_db_idempotent (s : SchemaState) :
    Database.init_db (Database.init_db s) = Database.init_db s ∧
    (Database.init_db (Database.init_db s)).roots = (Database.init_db s).roots ∧
    (Database.init_db (Database.init_db s)).files = (Database.init_db s).files ∧
    (Database.init_db (Database.init_db s)).config = (Database.init_db s).config := by
  obtain ⟨h1, h2, h3, h4, h5, h6, h7⟩ := init_db_objects s
  have main : Database.init_db (Database.init_db s) = Database.init_db s := by
    conv_lhs => rw [Database.init_db]
    rw [createRootsTable_of_mem h1, createFilesTable_of_mem h2,
        createIndexIfAbsent_of_mem h3, createIndexIfAbsent_of_mem h4,
        createIndexIfAbsent_of_mem h5, createIndexIfAbsent_of_mem h7,
        createConfigTable_of_mem h6]
  exact ⟨main, by rw [main], by rw [main], by rw [main]⟩

/-! ## Config persistence (claim C8) -/

theorem find_config_after_set (k : String) (v : Json) :
    ∀ (l : List (String × Json)),
      (l.filter (fun kv => kv.1 != k) ++ [(k, v)]).find? (fun kv => kv.1 == k) = some (k, v) := by
  intro l
  induction l with
  | nil => simp [List.find?]
  | cons p rest ih =>
    by_cases hp : p.1 = k
    · simp [List.filter, hp, ih]
    · have hne : (p.1 != k) = true := by simp [hp]
      simp only [List.filter, hne, List.cons_append, List.find?]
      have : (p.1 == k) = false := by simp [hp]
      simp [this, ih]

/-- C8: config round-trip and full replacement — `set_config k v` followed
by `get_config k d` returns `v` whatever the key previously held (the
`REPLACE` discards any previous row for `k` whole), and `get_config` of an
absent key returns the supplied default. -/
theorem c8_config_roundtrip (st : Store) (k : String) (v d : Json) :
    Database.get_config (Database.set_config st k v) k d = v ∧
    ((∀ kv ∈ st.config, kv.1 ≠ k) → Database.get_config st k d = d) := by
  constructor
  · unfold Database.get_config Database.set_config
    simp only [find_config_after_set]
  · intro habs
    unfold Database.get_config
    have : st.config.find? (fun kv => kv.1 == k) = none := by
      rw [List.find?_eq_none]
      intro kv hkv
      simp [habs kv hkv]
    simp [this]

/-- Witness for C8 at a concrete store: the key `"settings"` already holds
a value and is fully replaced; the absent key `"other"` yields the
default. -/
theorem c8_config_roundtrip_witness :
    Database.get_config (Database.set_config c8Store "settings" (Json.num 3))
        "settings" Json.null = Json.num 3 ∧
    (∀ kv ∈ c8Store.config, kv.1 ≠ "other") ∧
    Database.get_config c8Store "other" (Json.num 9) = Json.num 9 := by
  have habs : ∀ kv ∈ c8Store.config, kv.1 ≠ "other" := by
    intro kv hkv
    simp [c8Store] at hkv
    simp [hkv]
  exact ⟨(c8_config_roundtrip c8Store "settings" (Json.num 3) Json.null).1, habs,
    (c8_config_roundtrip c8Store "other" (Json.num 3) (Json.num 9)).2 habs⟩

/-! ## Job queue start on an existing alias (claim C1) -/

/-- C1 (divergence witness): starting a scan for an alias that already
exists as a Root raises `IntegrityError` out of `Database.add_root`'s
unconditional `INSERT`, instead of resolving the existing Root row.  The
claimed update-or-create behaviour does not hold on the code. -/
theorem c1_start_existing_alias_raises :
    QueueTab.start c1Store c1Queue none =
      StartResult.raised DBError.integrityError c1Store
        { pending := [], hasWorker := false } := by
  rfl

/-! ## SQL `LIKE` semantics (claims C3 and C6) -/

theorem likeMatchCore_pct_nil (ps : List Char) :
    likeMatchCore ('%' :: ps) [] = likeMatchCore ps [] := by
  simp [likeMatchCore]

theorem likeMatchCore_pct_cons (ps : List Char) (c : Char) (s : List Char) :
    likeMatchCore ('%' :: ps) (c :: s) =
      (likeMatchCore ps (c :: s) || likeMatchCore ('%' :: ps) s) := by
  simp [likeMatchCore]

theorem likeMatchCore_lit_cons {p : Char} (hp1 : p ≠ '%') (hp2 : p ≠ '_') (ps : List Char)
    (c : Char) (s : List Char) :
    likeMatchCore (p :: ps) (c :: s) = ((asciiLower p == asciiLower c) && likeMatchCore ps s) := by
  simp [likeMatchCore, hp1, hp2]

theorem likeMatchCore_lit_nil {p : Char} (hp1 : p ≠ '%') (ps : List Char) :
    likeMatchCore (p :: ps) [] = false := by
  simp [likeMatchCore, hp1]

theorem likeMatchCore_nil (s : List Char) : likeMatchCore [] s = s.isEmpty := by
  cases s <;> simp [likeMatchCore]

theorem noWildL_head {p : Char} {ps : List Char} (h : noWildL (p :: ps)) :
    p ≠ '%' ∧ p ≠ '_' :=
  h p (by simp)

theorem noWildL_tail {p : Char} {ps : List Char} (h : noWildL (p :: ps)) : noWildL ps :=
  fun c hc => h c (by simp [hc])

/-- A literal (wildcard-free) pattern matches exactly the strings with the
same ASCII-lowercase folding. -/
theorem likeMatchCore_lit (lit : List Char) (h : noWildL lit) :
    ∀ s, likeMatchCore lit s = (lowerL lit == lowerL s) := by
  induction lit with
  | nil =>
    intro s
    cases s <;> simp [likeMatchCore_nil, lowerL]
  | cons p ps ih =>
    intro s
    obtain ⟨hp1, hp2⟩ := noWildL_head h
    cases s with
    | nil => simp [likeMatchCore_lit_nil hp1, lowerL]
    | cons c s' =>
      rw [likeMatchCore_lit_cons hp1 hp2, ih (noWildL_tail h)]
      simp [lowerL, List.cons_beq_cons]

theorem likeMatchCore_pct_any (s : List Char) : likeMatchCore ['%'] s = true := by
  induction s with
  | nil => rw [likeMatchCore_pct_nil]; simp [likeMatchCore_nil]
  | cons c s ih => rw [likeMatchCore_pct_cons, ih]; simp

/-- `lit%` matches exactly the strings whose lowercase folding starts with
the folded literal. -/
theorem likeMatchCore_lit_pct (lit : List Char) (h : noWildL lit) :
    ∀ s, likeMatchCore (lit ++ ['%']) s = isPrefB (lowerL lit) (lowerL s) := by
  induction lit with
  | nil => intro s; simp [likeMatchCore_pct_any, lowerL, isPrefB]
  | cons p ps ih =>
    intro s
    obtain ⟨hp1, hp2⟩ := noWildL_head h
    cases s with
    | nil => simp [likeMatchCore_lit_nil hp1, lowerL, isPrefB]
    | cons c s' =>
      rw [List.cons_append, likeMatchCore_lit_cons hp1 hp2, ih (noWildL_tail h)]
      simp [lowerL, isPrefB]

/-- `%lit%` matches exactly the strings whose lowercase folding contains
the folded literal as a substring. -/
theorem likeMatchCore_pct_lit_pct (lit : List Char) (h : noWildL lit) :
    ∀ s, likeMatchCore ('%' :: (lit ++ ['%'])) s = isSubLB (lowerL lit) (lowerL s) := by
  intro s
  induction s with
  | nil =>
    rw [likeMatchCore_pct_nil, likeMatchCore_lit_pct lit h]
    simp [isSubLB, lowerL]
  | cons c s' ih =>
    rw [likeMatchCore_pct_cons, likeMatchCore_lit_pct lit h, ih]
    simp [isSubLB, lowerL]

/-- `%lit` matches exactly the strings whose lowercase folding ends with
the folded literal. -/
theorem likeMatchCore_pct_lit (lit : List Char) (h : noWildL lit) :
    ∀ s, likeMatchCore ('%' :: lit) s = isSuffB (lowerL lit) (lowerL s) := by
  intro s
  induction s with
  | nil =>
    rw [likeMatchCore_pct_nil, likeMatchCore_lit lit h]
    simp [isSuffB, lowerL]
  | cons c s' ih =>
    rw [likeMatchCore_pct_cons, likeMatchCore_lit lit h, ih]
    simp [isSuffB, lowerL]

theorem likeMatch_name_eq (n fname : String) (h : noWildL n.data) :
    likeMatch ("%" ++ n ++ "%") fname = isSubLB (lowerL n.data) (lowerL fname.data) := by
  unfold likeMatch
  have hdata : ("%" ++ n ++ "%").data = '%' :: (n.data ++ ['%']) := by
    simp [String.data_append]
  rw [hdata, likeMatchCore_pct_lit_pct n.data h]

theorem likeMatch_ext_eq (e fname : String) (h : noWildL e.data) :
    likeMatch ("%." ++ e) fname = isSuffB (lowerL ('.' :: e.data)) (lowerL fname.data) := by
  unfold likeMatch
  have hdata : ("%." ++ e).data = '%' :: ('.' :: e.data) := by
    simp [String.data_append]
  have hnw : noWildL ('.' :: e.data) := by
    intro c hc
    rcases List.mem_cons.mp hc with hdot | hmem
    · subst hdot; exact ⟨by decide, by decide⟩
    · exact h c hmem
  rw [hdata, likeMatchCore_pct_lit ('.' :: e.data) hnw]

/-- On wildcard-free inputs the `LIKE` clauses built by the source are the
case-insensitive substring / suffix predicates. -/
theorem rowPred_eq_specMatchCI (n : String) (mn mx : Option Nat) (e : String)
    (hn : noWildL n.data) (he : noWildL e.data) (fname : String) (size : Nat) :
    rowPred n mn mx e fname size = specMatchCI n mn mx e fname size := by
  unfold rowPred specMatchCI
  by_cases hn0 : n = "" <;> by_cases he0 : e = "" <;>
    simp [hn0, he0, likeMatch_name_eq _ _ hn, likeMatch_ext_eq _ _ he]

/-! ## Sorting by `modified_time DESC` -/

theorem insertDesc_length (x : SearchRow) (l : List SearchRow) :
    (insertDesc x l).length = l.length + 1 := by
  induction l with
  | nil => simp [insertDesc]
  | cons y ys ih =>
    unfold insertDesc
    split
    · simp
    · simp [ih]

theorem sortDesc_length (l : List SearchRow) : (sortDesc l).length = l.length := by
  induction l with
  | nil => rfl
  | cons x xs ih => simp [sortDesc, insertDesc_length, ih]

theorem mem_insertDesc {z x : SearchRow} {l : List SearchRow} :
    z ∈ insertDesc x l ↔ z = x ∨ z ∈ l := by
  induction l with
  | nil => simp [insertDesc]
  | cons y ys ih =>
    unfold insertDesc
    split
    · simp
    · simp [ih]
      tauto

theorem insertDesc_sorted (x : SearchRow) (l : List SearchRow)
    (h : l.Pairwise (fun a b => b.modified_time ≤ a.modified_time)) :
    (insertDesc x l).Pairwise (fun a b => b.modified_time ≤ a.modified_time) := by
  induction l with
  | nil => simp [insertDesc]
  | cons y ys ih =>
    unfold insertDesc
    split
    · rename_i hle
      refine List.Pairwise.cons ?_ h
      intro z hz
      rcases List.mem_cons.mp hz with hzy | hzys
      · subst hzy; exact hle
      · exact le_trans (List.rel_of_pairwise_cons h hzys) hle
    · rename_i hgt
      have hxy : x.modified_time ≤ y.modified_time := le_of_lt (lt_of_not_le hgt)
      refine List.Pairwise.cons ?_ (ih (List.Pairwise.of_cons h))
      intro z hz
      rcases mem_insertDesc.mp hz with hzx | hzys
      · subst hzx; exact hxy
      · exact List.rel_of_pairwise_cons h hzys

theorem sortDesc_sorted (l : List SearchRow) :
    (sortDesc l).Pairwise (fun a b => b.modified_time ≤ a.modified_time) := by
  induction l with
  | nil => simp [sortDesc]
  | cons x xs ih => exact insertDesc_sorted x (sortDesc xs) ih

/-! ## Claim C3: search filter semantics -/

/-- C3 (counterexample): the name filter is not case-sensitive.  On a
store holding one file named `"ABC.TXT"`, searching for the name substring
`"abc"` returns that row — the claimed case-sensitive semantics
(`searchSpecCS`, stated from the spec's words) returns nothing, so the two
disagree. -/
theorem c3_counterexample :
    Database.search_files c3Store "abc" none none "" 100 0 ≠
      searchSpecCS c3Store "abc" none none "" 100 0 ∧
    searchSpecCS c3Store "abc" none none "" 100 0 = [] ∧
    (Database.search_files c3Store "abc" none none "" 100 0).map SearchRow.file_name =
      ["ABC.TXT"] := by
  refine ⟨?_, ?_, ?_⟩ <;>
    simp [Database.search_files, searchSpecCS, c3Store, joinRows, rowPred, specMatchCS,
      likeMatch, likeMatchCore, asciiLower, sortDesc, insertDesc, isSubLB, isPrefB]

/-- C3 (amended): for every store state and filter combination with
wildcard-free name and extension inputs, `search_files` applies the
filters conjunctively with the name filter an ASCII-case-insensitive
substring match and the extension filter an ASCII-case-insensitive
suffix match of `.extension`; results are ordered by `modified_time`
descending with pagination via limit/offset. -/
theorem c3_search_filters_amended (st : Store) (n : String) (mn mx : Option Nat) (e : String)
    (L O : Nat) (hn : noWildL n.data) (he : noWildL e.data) :
    Database.search_files st n mn mx e L O = searchSpecCI st n mn mx e L O ∧
    (Database.search_files st n mn mx e L O).Pairwise
      (fun a b => b.modified_time ≤ a.modified_time) := by
  have hfun : (fun row : SearchRow => rowPred n mn mx e row.file_name row.size) =
      (fun row : SearchRow => specMatchCI n mn mx e row.file_name row.size) :=
    funext fun row => rowPred_eq_specMatchCI n mn mx e hn he row.file_name row.size
  constructor
  · unfold Database.search_files searchSpecCI
    rw [hfun]
  · unfold Database.search_files
    exact ((sortDesc_sorted _).sublist
      ((List.take_sublist _ _).trans (List.drop_sublist _ _)))

/-- Witness for the amended C3 at the concrete store. -/
theorem c3_search_filters_amended_witness :
    noWildL ("abc" : String).data ∧ noWildL ("txt" : String).data ∧
    (Database.search_files c3Store "abc" none none "txt" 100 0 =
        searchSpecCI c3Store "abc" none none "txt" 100 0 ∧
      (Database.search_files c3Store "abc" none none "txt" 100 0).Pairwise
        (fun a b => b.modified_time ≤ a.modified_time)) := by
  have hn : noWildL ("abc" : String).data := by
    unfold noWildL
    decide
  have he : noWildL ("txt" : String).data := by
    unfold noWildL
    decide
  exact ⟨hn, he, c3_search_filters_amended c3Store "abc" none none "txt" 100 0 hn he⟩

/-! ## Claim C6: `count_search` vs unpaginated `search_files` -/

theorem length_filter_joinRows (roots : List RootRow) (cfg : List (String × Json))
    (n : String) (mn mx : Option Nat) (e : String) :
    ∀ fs : List FileRow,
      (∀ f ∈ fs, (roots.filter (fun r => r.id == f.root_id)).length = 1) →
      ((joinRows { roots := roots, files := fs, config := cfg }).filter
          (fun row => rowPred n mn mx e row.file_name row.size)).length
        = (fs.filter (fun f => rowPred n mn mx e f.file_name f.size)).length := by
  intro fs
  induction fs with
  | nil => intro _; simp [joinRows]
  | cons f fs ih =>
    intro h
    have h1 := h f (by simp)
    obtain ⟨r, hr⟩ := List.length_eq_one.mp h1
    have hrest : ∀ g ∈ fs, (roots.filter (fun r => r.id == g.root_id)).length = 1 :=
      fun g hg => h g (by simp [hg])
    simp only [joinRows, List.map_cons, List.flatten_cons, List.filter_append,
      List.length_append] at *
    rw [hr]
    simp only [List.map_cons, List.map_nil, List.filter_cons]
    have hrec := ih hrest
    cases hp : rowPred n mn mx e f.file_name f.size <;>
      simp only [hp, Bool.false_eq_true, if_false, if_true, List.filter_nil,
        List.length_nil, List.length_cons, Nat.zero_add, hrec] <;>
      omega

/-- C6: for every store state satisfying the schema's referential
invariant (each file's `root_id` resolves to exactly one root — the
`FOREIGN KEY` with unique `id`s guarantees this), `count_search` returns
exactly the number of rows `search_files` returns with the same filters
once pagination is removed (any limit at least the count, offset zero). -/
theorem c6_count_search_eq (st : Store) (n : String) (mn mx : Option Nat) (e : String) (L : Nat)
    (hwf : ∀ f ∈ st.files, (st.roots.filter (fun r => r.id == f.root_id)).length = 1)
    (hL : Database.count_search st n mn mx e ≤ L) :
    Database.count_search st n mn mx e = (Database.search_files st n mn mx e L 0).length := by
  have hjoin := length_filter_joinRows st.roots st.config n mn mx e st.files hwf
  have hst : ({ roots := st.roots, files := st.files, config := st.config } : Store) = st := rfl
  rw [hst] at hjoin
  unfold Database.search_files
  rw [List.drop_zero, List.length_take, sortDesc_length, hjoin]
  unfold Database.count_search at hL ⊢
  omega

/-- Witness for C6 at a concrete store. -/
theorem c6_count_search_eq_witness :
    (∀ f ∈ c3Store.files, (c3Store.roots.filter (fun r => r.id == f.root_id)).length = 1) ∧
    Database.count_search c3Store "" none none "" ≤ 100 ∧
    Database.count_search c3Store "" none none "" =
      (Database.search_files c3Store "" none none "" 100 0).length := by
  have hwf : ∀ f ∈ c3Store.files, (c3Store.roots.filter (fun r => r.id == f.root_id)).length = 1 := by
    intro f hf
    simp [c3Store] at hf
    simp [c3Store, hf]
  have hL : Database.count_search c3Store "" none none "" ≤ 100 := by
    simp [Database.count_search, c3Store, rowPred]
  exact ⟨hwf, hL, c6_count_search_eq c3Store "" none none "" 100 hwf hL⟩



/-! ## Scanner invariants and claims C2, C4, C5, C9, C10 -/

theorem sizeSum_append (a b : List FileRow) : sizeSum (a ++ b) = sizeSum a + sizeSum b := by
  simp [sizeSum]

theorem scanInv_checks {P : FileRow → Prop} {s : ScanState} (h : scanInv P s) :
    scanInv P { s with checks := s.checks + 1 } := by
  simpa [scanInv, totalsInv, rowsOk, eventsOk, dbRows] using h

theorem scanInv_append_row {P : FileRow → Prop} {s : ScanState} {row : FileRow}
    (h : scanInv P s) (hrow : P row) :
    scanInv P { s with batch := s.batch ++ [row],
                       total_files := s.total_files + 1,
                       total_bytes := s.total_bytes + row.size } := by
  obtain ⟨⟨h1, h2⟩, h3, h4⟩ := h
  refine ⟨⟨?_, ?_⟩, ?_, ?_⟩
  · simp [dbRows, h1]
    omega
  · simp [dbRows, sizeSum] at h2 ⊢
    omega
  · intro r hr
    simp [dbRows] at hr
    rcases hr with hr | hr | hr
    · exact h3 r (by simp [dbRows, hr])
    · exact h3 r (by simp [dbRows, hr])
    · subst hr; exact hrow
  · exact h4

theorem scanInv_flush {P : FileRow → Prop} {s : ScanState} (h : scanInv P s) :
    scanInv P { s with committed := s.committed ++ s.batch,
                       log := s.log ++ [StoreAction.insertFilesBatch s.batch],
                       batch := [], inserts := s.inserts + 1 } := by
  obtain ⟨⟨h1, h2⟩, h3, h4⟩ := h
  refine ⟨⟨?_, ?_⟩, ?_, ?_⟩
  · simpa [dbRows] using h1
  · simpa [dbRows] using h2
  · intro r hr
    refine h3 r ?_
    simpa [dbRows] using hr
  · exact h4

theorem scanInv_emit {P : FileRow → Prop} {s : ScanState} (h : scanInv P s) :
    scanInv P { s with events := s.events ++ [(s.total_files, s.total_bytes)] } := by
  obtain ⟨⟨h1, h2⟩, h3, h4⟩ := h
  refine ⟨⟨h1, h2⟩, h3, ?_⟩
  intro ev hev
  simp at hev
  rcases hev with hev | hev
  · exact h4 ev hev
  · exact ⟨dbRows s, h3, by simp [hev, h1, h2]⟩

theorem processFiles_inv (w : ScanWorker) (faults : Nat → Bool) (cancelAt : Option Nat)
    (comps : List String) (P : FileRow → Prop) (hff : ∀ n, faults n = false)
    (fs : List FSFile) (s : ScanState) :
    (∀ f ∈ fs, ∀ sz mt, f.meta = some (sz, mt) →
        (w.ignore_patterns.any fun pat => fnmatchB f.name pat) = false →
        P { root_id := w.root_id, file_name := f.name, relative_path := relPath comps f.name,
            size := sz, modified_time := mt }) →
    scanInv P s → scanInv P (ScanWorker.processFiles w faults cancelAt comps fs s) := by
  induction fs, s using ScanWorker.processFiles.induct w faults cancelAt comps with
  | case1 s =>
    intro _ hs
    simpa [ScanWorker.processFiles] using hs
  | case2 f rest s hc =>
    intro _ hs
    rw [ScanWorker.processFiles, if_pos hc]
    exact scanInv_checks hs
  | case3 f rest s hc s1 hig ih =>
    intro hP hs
    rw [ScanWorker.processFiles, if_neg hc]
    simp only [hig, if_true]
    exact ih (fun g hg => hP g (List.mem_cons_of_mem f hg)) (scanInv_checks hs)
  | case4 f rest s hc s1 hig hmeta ih =>
    intro hP hs
    rw [ScanWorker.processFiles, if_neg hc]
    simp only [hig, hmeta, Bool.false_eq_true, if_false]
    exact ih (fun g hg => hP g (List.mem_cons_of_mem f hg)) (scanInv_checks hs)
  | case5 f rest s hc s1 hig sz mt hmeta row s2 hbig hfault ih =>
    exfalso
    simp [hff] at hfault
  | case6 f rest s hc s1 hig sz mt hmeta row s2 hbig hfault s3 ih =>
    intro hP hs
    rw [ScanWorker.processFiles, if_neg hc]
    simp only [hig, hmeta, Bool.false_eq_true, if_false, if_pos hbig, if_neg hfault]
    refine ih (fun g hg => hP g (List.mem_cons_of_mem f hg)) ?_
    have hrow : P { root_id := w.root_id, file_name := f.name,
                    relative_path := relPath comps f.name, size := sz,
                    modified_time := mt } :=
      hP f (List.mem_cons_self f rest) sz mt hmeta (by simpa using hig)
    exact scanInv_emit (scanInv_flush (scanInv_append_row (scanInv_checks hs) hrow))
  | case7 f rest s hc s1 hig sz mt hmeta row s2 hsmall ih =>
    intro hP hs
    rw [ScanWorker.processFiles, if_neg hc]
    simp only [hig, hmeta, Bool.false_eq_true, if_false, if_neg hsmall]
    refine ih (fun g hg => hP g (List.mem_cons_of_mem f hg)) ?_
    have hrow : P { root_id := w.root_id, file_name := f.name,
                    relative_path := relPath comps f.name, size := sz,
                    modified_time := mt } :=
      hP f (List.mem_cons_self f rest) sz mt hmeta (by simpa using hig)
    exact scanInv_emit (scanInv_append_row (scanInv_checks hs) hrow)

theorem scanDir_inv (w : ScanWorker) (faults : Nat → Bool) (cancelAt : Option Nat)
    (P : FileRow → Prop) (hff : ∀ n, faults n = false)
    (hPall : ∀ (comps' : List String) (f : FSFile) (sz : Nat) (mt : Int),
      f.meta = some (sz, mt) →
      (w.ignore_patterns.any fun pat => fnmatchB f.name pat) = false →
      (w.skip_hidden = true → startsWithDot f.name = false) →
      P { root_id := w.root_id, file_name := f.name,
          relative_path := relPath comps' f.name, size := sz, modified_time := mt }) :
    ∀ (comps : List String) (t : FSTree) (s : ScanState),
      scanInv P s → scanInv P (ScanWorker.scanDir w faults cancelAt comps t s) := by
  intro comps t s
  refine ScanWorker.scanDir.induct w faults cancelAt
    (fun comps t s => scanInv P s →
      scanInv P (ScanWorker.scanDir w faults cancelAt comps t s))
    (fun comps ts s => scanInv P s →
      scanInv P (ScanWorker.scanSubdirs w faults cancelAt comps ts s))
    ?_ ?_ ?_ ?_ comps t s
  · intro comps name files subdirs s hc hs
    simp only [ScanWorker.scanDir]
    rw [if_pos hc]
    exact scanInv_checks hs
  · intro comps name files subdirs s hc s1 files' s2 ihsub hs
    simp only [ScanWorker.scanDir]
    rw [if_neg hc]
    refine ihsub ?_
    refine processFiles_inv w faults cancelAt comps P hff _ _ ?_ (scanInv_checks hs)
    intro f hf sz mt hmeta hig
    refine hPall comps f sz mt hmeta hig ?_
    intro hsk
    have hfs : files' = if w.skip_hidden = true then
        files.filter (fun f => !startsWithDot f.name) else files := rfl
    rw [hfs, hsk, if_pos rfl] at hf
    have := (List.mem_filter.mp hf).2
    simpa using this
  · intro comps s hs
    simp only [ScanWorker.scanSubdirs]
    exact hs
  · intro comps t ts s s1 ih1 ih2 hs
    have hs1 : s1 = if (w.skip_hidden && startsWithDot t.name) = true then s
        else ScanWorker.scanDir w faults cancelAt (comps ++ [t.name]) t s := rfl
    rw [hs1] at ih2
    simp only [ScanWorker.scanSubdirs]
    by_cases hh : (w.skip_hidden && startsWithDot t.name) = true
    · rw [if_pos hh] at ih2 ⊢
      exact ih2 hs
    · rw [if_neg hh] at ih2 ⊢
      exact ih2 (ih1 hs)

theorem scanInv_init (P : FileRow → Prop) : scanInv P initScanState := by
  refine ⟨⟨rfl, rfl⟩, ?_, ?_⟩
  · intro r hr
    simp [dbRows, initScanState] at hr
  · intro ev hev
    simp [initScanState] at hev

/-- Shape of every fault-free `ScanWorker.run` outcome: the terminal event
carries exactly the committed rows' count and byte sum (so the tail batch
was flushed), the scan-completion record is the last store action, every
committed row satisfies the row predicate maintained by the traversal, and
every progress event is the count/byte total of rows satisfying it. -/
theorem run_inv (w : ScanWorker) (faults : Nat → Bool) (cancelAt : Option Nat)
    (tree : FSTree) (usage : Option (Nat × Nat)) (P : FileRow → Prop)
    (hff : ∀ n, faults n = false)
    (hPall : ∀ (comps' : List String) (f : FSFile) (sz : Nat) (mt : Int),
      f.meta = some (sz, mt) →
      (w.ignore_patterns.any fun pat => fnmatchB f.name pat) = false →
      (w.skip_hidden = true → startsWithDot f.name = false) →
      P { root_id := w.root_id, file_name := f.name,
          relative_path := relPath comps' f.name, size := sz, modified_time := mt }) :
    (ScanWorker.run w faults cancelAt tree usage).finished =
      some ((ScanWorker.run w faults cancelAt tree usage).committed.length,
        sizeSum (ScanWorker.run w faults cancelAt tree usage).committed) ∧
    (ScanWorker.run w faults cancelAt tree usage).log.getLast? =
      some (StoreAction.updateRootScan w.root_id (usage.map Prod.fst) (usage.map Prod.snd)) ∧
    (∀ r ∈ (ScanWorker.run w faults cancelAt tree usage).committed, P r) ∧
    (∀ ev ∈ (ScanWorker.run w faults cancelAt tree usage).events,
      ∃ rows : List FileRow, (∀ r ∈ rows, P r) ∧ ev = (rows.length, sizeSum rows)) := by
  have hinv : scanInv P (ScanWorker.scanDir w faults cancelAt [] tree initScanState) :=
    scanDir_inv w faults cancelAt P hff hPall [] tree initScanState (scanInv_init P)
  set s := ScanWorker.scanDir w faults cancelAt [] tree initScanState with hsdef
  obtain ⟨⟨h1, h2⟩, h3, h4⟩ := hinv
  unfold ScanWorker.run
  rw [← hsdef]
  by_cases hb : s.batch.isEmpty
  · have hbnil : s.batch = [] := List.isEmpty_iff.mp hb
    rw [if_pos hb]
    refine ⟨?_, ?_, ?_, ?_⟩
    · simp only []
      rw [h1, h2]
      simp [dbRows, hbnil]
    · simp [List.getLast?_concat]
    · intro r hr
      exact h3 r (by simp [dbRows, hr])
    · exact h4
  · rw [if_neg hb, if_neg (by simp [hff])]
    refine ⟨?_, ?_, ?_, ?_⟩
    · simp only []
      rw [h1, h2]
      simp [dbRows]
    · have : s.log ++ [StoreAction.insertFilesBatch s.batch,
          StoreAction.updateRootScan w.root_id (usage.map Prod.fst) (usage.map Prod.snd)]
          = (s.log ++ [StoreAction.insertFilesBatch s.batch]) ++
            [StoreAction.updateRootScan w.root_id (usage.map Prod.fst) (usage.map Prod.snd)] := by
        simp
      simp only [this, List.getLast?_concat]
    · intro r hr
      exact h3 r (by simpa [dbRows] using hr)
    · exact h4

/-- C4: for every scan cancelled mid-traversal (on a fault-free store),
the unflushed tail batch is still flushed — the terminal event's file and
byte counts equal exactly the number and byte sum of the rows committed to
the store for the scan — and the scan-completion record
(`update_root_scan` with the captured capacity/free) is the last store
action. -/
theorem c4_cancelled_scan_commits (w : ScanWorker) (faults : Nat → Bool) (c : Nat)
    (tree : FSTree) (usage : Option (Nat × Nat)) (hff : ∀ n, faults n = false) :
    (ScanWorker.run w faults (some c) tree usage).finished =
      some ((ScanWorker.run w faults (some c) tree usage).committed.length,
        sizeSum (ScanWorker.run w faults (some c) tree usage).committed) ∧
    (ScanWorker.run w faults (some c) tree usage).log.getLast? =
      some (StoreAction.updateRootScan w.root_id (usage.map Prod.fst) (usage.map Prod.snd)) := by
  have h := run_inv w faults (some c) tree usage (fun _ => True) hff
    (fun _ _ _ _ _ _ _ => trivial)
  exact ⟨h.1, h.2.1⟩

/-- Witness for C4: a two-file tree cancelled at the third flag check. -/
theorem c4_cancelled_scan_commits_witness :
    (∀ n, (fun _ => false : Nat → Bool) n = false) ∧
    ((ScanWorker.run w4 (fun _ => false) (some 2) tree4 (some (100, 40))).finished =
      some ((ScanWorker.run w4 (fun _ => false) (some 2) tree4 (some (100, 40))).committed.length,
        sizeSum (ScanWorker.run w4 (fun _ => false) (some 2) tree4 (some (100, 40))).committed) ∧
    (ScanWorker.run w4 (fun _ => false) (some 2) tree4 (some (100, 40))).log.getLast? =
      some (StoreAction.updateRootScan w4.root_id ((some (100, 40)).map Prod.fst)
        ((some (100, 40)).map Prod.snd))) :=
  ⟨fun _ => rfl,
   c4_cancelled_scan_commits w4 (fun _ => false) 2 tree4 (some (100, 40)) (fun _ => rfl)⟩

theorem pruneHidden_name (t : FSTree) : (pruneHidden t).name = t.name := by
  cases t
  simp [pruneHidden, FSTree.name]

/-- With `skip_hidden` set, scanning a tree is identical to scanning the
tree with every hidden file removed and every hidden directory pruned:
the walk never descends into pruned directories and the filters remove
exactly what pruning removed. -/
theorem scanDir_pruneHidden (w : ScanWorker) (faults : Nat → Bool) (cancelAt : Option Nat)
    (hsk : w.skip_hidden = true) :
    ∀ (comps : List String) (t : FSTree) (s : ScanState),
      ScanWorker.scanDir w faults cancelAt comps (pruneHidden t) s =
        ScanWorker.scanDir w faults cancelAt comps t s := by
  intro comps t s
  refine ScanWorker.scanDir.induct w faults cancelAt
    (fun comps t s => ScanWorker.scanDir w faults cancelAt comps (pruneHidden t) s =
      ScanWorker.scanDir w faults cancelAt comps t s)
    (fun comps ts s => ScanWorker.scanSubdirs w faults cancelAt comps (pruneForest ts) s =
      ScanWorker.scanSubdirs w faults cancelAt comps ts s)
    ?_ ?_ ?_ ?_ comps t s
  · intro comps name files subdirs s hc
    simp only [pruneHidden, ScanWorker.scanDir]
    rw [if_pos hc, if_pos hc]
  · intro comps name files subdirs s hc s1 files' s2 ihsub
    have hfiles : files' = files.filter (fun f => !startsWithDot f.name) := by
      have hdef : files' = if w.skip_hidden = true then
          files.filter (fun f => !startsWithDot f.name) else files := rfl
      rw [hdef, hsk]
      simp
    have hs2 : s2 = ScanWorker.processFiles w faults cancelAt comps
        (files.filter (fun f => !startsWithDot f.name)) s1 := by
      have hdef : s2 = ScanWorker.processFiles w faults cancelAt comps files' s1 := rfl
      rw [hdef, hfiles]
    rw [hs2] at ihsub
    simp only [pruneHidden, ScanWorker.scanDir]
    rw [if_neg hc, if_neg hc, hsk]
    simp only [if_true, List.filter_filter, Bool.and_self]
    exact ihsub
  · intro comps s
    simp only [pruneForest]
  · intro comps t ts s s1 ih1 ih2
    have hs1 : s1 = if (w.skip_hidden && startsWithDot t.name) = true then s
        else ScanWorker.scanDir w faults cancelAt (comps ++ [t.name]) t s := rfl
    by_cases hhid : startsWithDot t.name = true
    · rw [pruneForest, if_pos hhid]
      conv_rhs => rw [ScanWorker.scanSubdirs]
      rw [hs1] at ih2
      rw [if_pos (by simp [hsk, hhid])] at ih2
      rw [if_pos (by simp [hsk, hhid])]
      exact ih2
    · rw [pruneForest, if_neg hhid]
      conv_lhs => rw [ScanWorker.scanSubdirs]
      conv_rhs => rw [ScanWorker.scanSubdirs]
      rw [hs1] at ih2
      rw [if_neg (by simp [hsk, hhid])] at ih2
      rw [if_neg (by simp [hsk, hhid, pruneHidden_name]),
        if_neg (by simp [hsk, hhid])]
      rw [pruneHidden_name, ih1]
      exact ih2

/-- With no ignore patterns and no cancellation, the file loop hands every
statable file of the directory to the store, in order. -/
theorem processFiles_rows_nofilter (w : ScanWorker) (faults : Nat → Bool)
    (comps : List String) (hpat : w.ignore_patterns = []) (hff : ∀ n, faults n = false) :
    ∀ (fs : List FSFile) (s : ScanState),
      dbRows (ScanWorker.processFiles w faults none comps fs s) =
        dbRows s ++ fs.filterMap (fun f => f.meta.map (fun m =>
          ({ root_id := w.root_id, file_name := f.name,
             relative_path := relPath comps f.name, size := m.1,
             modified_time := m.2 } : FileRow))) := by
  intro fs
  induction fs with
  | nil =>
    intro s
    simp [ScanWorker.processFiles]
  | cons f rest ih =>
    intro s
    rw [ScanWorker.processFiles]
    rw [if_neg (by simp [cancelSeen])]
    rw [hpat]
    simp only [List.any_nil, Bool.false_eq_true, if_false]
    cases hm : f.meta with
    | none =>
      rw [ih]
      simp [hm, dbRows]
    | some m =>
      obtain ⟨sz, mt⟩ := m
      simp only []
      split
      · rw [if_neg (by simp [hff])]
        rw [ih]
        simp [hm, dbRows]
      · rw [ih]
        simp [hm, dbRows]

/-- With `skip_hidden` off, no ignore patterns and no cancellation, the
walk hands every statable file of the tree — hidden entries included — to
the store, in traversal order. -/
theorem scanDir_rows_nofilter (w : ScanWorker) (faults : Nat → Bool)
    (hsk : w.skip_hidden = false) (hpat : w.ignore_patterns = [])
    (hff : ∀ n, faults n = false) :
    ∀ (comps : List String) (t : FSTree) (s : ScanState),
      dbRows (ScanWorker.scanDir w faults none comps t s) =
        dbRows s ++ allRows w.root_id comps t := by
  intro comps t s
  refine ScanWorker.scanDir.induct w faults none
    (fun comps t s => dbRows (ScanWorker.scanDir w faults none comps t s) =
      dbRows s ++ allRows w.root_id comps t)
    (fun comps ts s => dbRows (ScanWorker.scanSubdirs w faults none comps ts s) =
      dbRows s ++ allRowsForest w.root_id comps ts)
    ?_ ?_ ?_ ?_ comps t s
  · intro comps name files subdirs s hc
    exact absurd hc (by simp [cancelSeen])
  · intro comps name files subdirs s hc s1 files' s2 ihsub
    have hfiles : files' = files := by
      have hdef : files' = if w.skip_hidden = true then
          files.filter (fun f => !startsWithDot f.name) else files := rfl
      rw [hdef, hsk]
      simp
    have hs2 : s2 = ScanWorker.processFiles w faults none comps files s1 := by
      have hdef : s2 = ScanWorker.processFiles w faults none comps files' s1 := rfl
      rw [hdef, hfiles]
    rw [hs2] at ihsub
    simp only [ScanWorker.scanDir]
    rw [if_neg hc, hsk]
    simp only [Bool.false_eq_true, if_false]
    rw [ihsub, processFiles_rows_nofilter w faults comps hpat hff]
    have hdb1 : dbRows ({ s with checks := s.checks + 1 } : ScanState) = dbRows s := by
      simp [dbRows]
    rw [hdb1]
    simp [allRows, List.append_assoc]
  · intro comps s
    simp [ScanWorker.scanSubdirs, allRowsForest]
  · intro comps t ts s s1 ih1 ih2
    have hs1 : s1 = ScanWorker.scanDir w faults none (comps ++ [t.name]) t s := by
      have hdef : s1 = if (w.skip_hidden && startsWithDot t.name) = true then s
          else ScanWorker.scanDir w faults none (comps ++ [t.name]) t s := rfl
      rw [hdef, hsk]
      simp
    rw [hs1] at ih2
    conv_lhs => rw [ScanWorker.scanSubdirs]
    rw [if_neg (by simp [hsk])]
    rw [ih2, ih1]
    simp [allRowsForest, List.append_assoc]

/-- The rows a run commits are exactly the walk's rows: the tail batch is
flushed after the walk (fault-free store). -/
theorem run_committed_eq (w : ScanWorker) (faults : Nat → Bool) (cancelAt : Option Nat)
    (tree : FSTree) (usage : Option (Nat × Nat)) (hff : ∀ n, faults n = false) :
    (ScanWorker.run w faults cancelAt tree usage).committed =
      dbRows (ScanWorker.scanDir w faults cancelAt [] tree initScanState) := by
  unfold ScanWorker.run
  set s := ScanWorker.scanDir w faults cancelAt [] tree initScanState with hsdef
  by_cases hb : s.batch.isEmpty
  · rw [if_pos hb]
    simp [dbRows, List.isEmpty_iff.mp hb]
  · rw [if_neg hb, if_neg (by simp [hff])]
    simp [dbRows]

/-- The exact-progress invariant: the events emitted so far are precisely
the running prefix statistics of the rows handed to the store, one event
per recorded file.  Stepping it: appending one row and emitting its
totals extends the prefix sequence by the full new list. -/
theorem eventsExact_step {s s' : ScanState} {r : FileRow}
    (hdb : dbRows s' = dbRows s ++ [r])
    (htf : s'.total_files = s.total_files + 1)
    (htb : s'.total_bytes = s.total_bytes + r.size)
    (hev : s'.events = s.events ++ [(s.total_files + 1, s.total_bytes + r.size)])
    (h1 : s.total_files = (dbRows s).length)
    (h2 : s.total_bytes = sizeSum (dbRows s))
    (h3 : s.events = (List.range s.total_files).map
      (fun i => (i + 1, sizeSum ((dbRows s).take (i + 1))))) :
    s'.total_files = (dbRows s').length ∧
    s'.total_bytes = sizeSum (dbRows s') ∧
    s'.events = (List.range s'.total_files).map
      (fun i => (i + 1, sizeSum ((dbRows s').take (i + 1)))) := by
  refine ⟨?_, ?_, ?_⟩
  · rw [htf, hdb, h1]
    simp
  · rw [htb, hdb, sizeSum_append, h2]
    simp [sizeSum]
  · rw [hev, h3, hdb, htf, List.range_succ, List.map_append]
    have hpre : ∀ i ∈ List.range s.total_files,
        (fun i => (i + 1, sizeSum ((dbRows s).take (i + 1)))) i =
          (fun i => (i + 1, sizeSum (((dbRows s) ++ [r]).take (i + 1)))) i := by
      intro i hi
      have hilt : i < s.total_files := List.mem_range.mp hi
      have hle : i + 1 ≤ (dbRows s).length := by omega
      simp only []
      rw [List.take_append_of_le_length hle]
    have hlast : ((dbRows s ++ [r]).take (s.total_files + 1)) = dbRows s ++ [r] := by
      refine List.take_of_length_le ?_
      simp [h1]
    rw [List.map_congr_left hpre]
    simp only [List.map_cons, List.map_nil, hlast]
    rw [sizeSum_append, ← h2]
    simp [sizeSum]

/-- Fault-free, the file loop keeps the exact-progress invariant: one
progress event per recorded file, each carrying the totals of the rows
recorded so far. -/
theorem processFiles_events (w : ScanWorker) (faults : Nat → Bool) (cancelAt : Option Nat)
    (comps : List String) (hff : ∀ n, faults n = false)
    (fs : List FSFile) (s : ScanState) :
    s.total_files = (dbRows s).length →
    s.total_bytes = sizeSum (dbRows s) →
    s.events = (List.range s.total_files).map
      (fun i => (i + 1, sizeSum ((dbRows s).take (i + 1)))) →
    ((ScanWorker.processFiles w faults cancelAt comps fs s).total_files =
        (dbRows (ScanWorker.processFiles w faults cancelAt comps fs s)).length ∧
      (ScanWorker.processFiles w faults cancelAt comps fs s).total_bytes =
        sizeSum (dbRows (ScanWorker.processFiles w faults cancelAt comps fs s)) ∧
      (ScanWorker.processFiles w faults cancelAt comps fs s).events =
        (List.range (ScanWorker.processFiles w faults cancelAt comps fs s).total_files).map
          (fun i => (i + 1,
            sizeSum ((dbRows (ScanWorker.processFiles w faults cancelAt comps fs s)).take
              (i + 1))))) := by
  induction fs, s using ScanWorker.processFiles.induct w faults cancelAt comps with
  | case1 s =>
    intro h1 h2 h3
    simp only [ScanWorker.processFiles]
    exact ⟨h1, h2, h3⟩
  | case2 f rest s hc =>
    intro h1 h2 h3
    rw [ScanWorker.processFiles, if_pos hc]
    exact ⟨h1, h2, h3⟩
  | case3 f rest s hc s1 hig ih =>
    intro h1 h2 h3
    rw [ScanWorker.processFiles, if_neg hc]
    simp only [hig, if_true]
    exact ih h1 h2 h3
  | case4 f rest s hc s1 hig hmeta ih =>
    intro h1 h2 h3
    rw [ScanWorker.processFiles, if_neg hc]
    simp only [hig, hmeta, Bool.false_eq_true, if_false]
    exact ih h1 h2 h3
  | case5 f rest s hc s1 hig sz mt hmeta row s2 hbig hfault ih =>
    exfalso
    simp [hff] at hfault
  | case6 f rest s hc s1 hig sz mt hmeta row s2 hbig hfault s3 ih =>
    intro h1 h2 h3
    rw [ScanWorker.processFiles, if_neg hc]
    simp only [hig, hmeta, Bool.false_eq_true, if_false, if_pos hbig, if_neg hfault]
    refine ih ?_ ?_ ?_ <;> first
    | exact (eventsExact_step (s := s) (r := row)
        (by simp [dbRows, List.append_assoc]) rfl rfl rfl h1 h2 h3).1
    | exact (eventsExact_step (s := s) (r := row)
        (by simp [dbRows, List.append_assoc]) rfl rfl rfl h1 h2 h3).2.1
    | exact (eventsExact_step (s := s) (r := row)
        (by simp [dbRows, List.append_assoc]) rfl rfl rfl h1 h2 h3).2.2
  | case7 f rest s hc s1 hig sz mt hmeta row s2 hsmall ih =>
    intro h1 h2 h3
    rw [ScanWorker.processFiles, if_neg hc]
    simp only [hig, hmeta, Bool.false_eq_true, if_false, if_neg hsmall]
    refine ih ?_ ?_ ?_ <;> first
    | exact (eventsExact_step (s := s) (r := row)
        (by simp [dbRows, List.append_assoc]) rfl rfl rfl h1 h2 h3).1
    | exact (eventsExact_step (s := s) (r := row)
        (by simp [dbRows, List.append_assoc]) rfl rfl rfl h1 h2 h3).2.1
    | exact (eventsExact_step (s := s) (r := row)
        (by simp [dbRows, List.append_assoc]) rfl rfl rfl h1 h2 h3).2.2

/-- Fault-free, the walk keeps the exact-progress invariant. -/
theorem scanDir_events (w : ScanWorker) (faults : Nat → Bool) (cancelAt : Option Nat)
    (hff : ∀ n, faults n = false) :
    ∀ (comps : List String) (t : FSTree) (s : ScanState),
      s.total_files = (dbRows s).length →
      s.total_bytes = sizeSum (dbRows s) →
      s.events = (List.range s.total_files).map
        (fun i => (i + 1, sizeSum ((dbRows s).take (i + 1)))) →
      ((ScanWorker.scanDir w faults cancelAt comps t s).total_files =
          (dbRows (ScanWorker.scanDir w faults cancelAt comps t s)).length ∧
        (ScanWorker.scanDir w faults cancelAt comps t s).total_bytes =
          sizeSum (dbRows (ScanWorker.scanDir w faults cancelAt comps t s)) ∧
        (ScanWorker.scanDir w faults cancelAt comps t s).events =
          (List.range (ScanWorker.scanDir w faults cancelAt comps t s).total_files).map
            (fun i => (i + 1,
              sizeSum ((dbRows (ScanWorker.scanDir w faults cancelAt comps t s)).take
                (i + 1))))) := by
  intro comps t s
  refine ScanWorker.scanDir.induct w faults cancelAt
    (fun comps t s =>
      s.total_files = (dbRows s).length →
      s.total_bytes = sizeSum (dbRows s) →
      s.events = (List.range s.total_files).map
        (fun i => (i + 1, sizeSum ((dbRows s).take (i + 1)))) →
      ((ScanWorker.scanDir w faults cancelAt comps t s).total_files =
          (dbRows (ScanWorker.scanDir w faults cancelAt comps t s)).length ∧
        (ScanWorker.scanDir w faults cancelAt comps t s).total_bytes =
          sizeSum (dbRows (ScanWorker.scanDir w faults cancelAt comps t s)) ∧
        (ScanWorker.scanDir w faults cancelAt comps t s).events =
          (List.range (ScanWorker.scanDir w faults cancelAt comps t s).total_files).map
            (fun i => (i + 1,
              sizeSum ((dbRows (ScanWorker.scanDir w faults cancelAt comps t s)).take
                (i + 1))))))
    (fun comps ts s =>
      s.total_files = (dbRows s).length →
      s.total_bytes = sizeSum (dbRows s) →
      s.events = (List.range s.total_files).map
        (fun i => (i + 1, sizeSum ((dbRows s).take (i + 1)))) →
      ((ScanWorker.scanSubdirs w faults cancelAt comps ts s).total_files =
          (dbRows (ScanWorker.scanSubdirs w faults cancelAt comps ts s)).length ∧
        (ScanWorker.scanSubdirs w faults cancelAt comps ts s).total_bytes =
          sizeSum (dbRows (ScanWorker.scanSubdirs w faults cancelAt comps ts s)) ∧
        (ScanWorker.scanSubdirs w faults cancelAt comps ts s).events =
          (List.range (ScanWorker.scanSubdirs w faults cancelAt comps ts s).total_files).map
            (fun i => (i + 1,
              sizeSum ((dbRows (ScanWorker.scanSubdirs w faults cancelAt comps ts s)).take
                (i + 1))))))
    ?_ ?_ ?_ ?_ comps t s
  · intro comps name files subdirs s hc h1 h2 h3
    rw [ScanWorker.scanDir, if_pos hc]
    exact ⟨h1, h2, h3⟩
  · intro comps name files subdirs s hc s1 files' s2 ihsub h1 h2 h3
    rw [ScanWorker.scanDir, if_neg hc]
    obtain ⟨g1, g2, g3⟩ :=
      processFiles_events w faults cancelAt comps hff files' ({ s with checks := s.checks + 1 })
        h1 h2 h3
    exact ihsub g1 g2 g3
  · intro comps s h1 h2 h3
    rw [ScanWorker.scanSubdirs]
    exact ⟨h1, h2, h3⟩
  · intro comps t ts s s1 ih1 ih2 h1 h2 h3
    have hs1 : s1 = if (w.skip_hidden && startsWithDot t.name) = true then s
        else ScanWorker.scanDir w faults cancelAt (comps ++ [t.name]) t s := rfl
    rw [hs1] at ih2
    rw [ScanWorker.scanSubdirs]
    by_cases hh : (w.skip_hidden && startsWithDot t.name) = true
    · rw [if_pos hh] at ih2 ⊢
      exact ih2 h1 h2 h3
    · rw [if_neg hh] at ih2 ⊢
      obtain ⟨g1, g2, g3⟩ := ih1 h1 h2 h3
      exact ih2 g1 g2 g3

/-- The progress events a run reports are the walk's events unchanged. -/
theorem run_events_eq (w : ScanWorker) (faults : Nat → Bool) (cancelAt : Option Nat)
    (tree : FSTree) (usage : Option (Nat × Nat)) (hff : ∀ n, faults n = false) :
    (ScanWorker.run w faults cancelAt tree usage).events =
      (ScanWorker.scanDir w faults cancelAt [] tree initScanState).events := by
  unfold ScanWorker.run
  set s := ScanWorker.scanDir w faults cancelAt [] tree initScanState with hsdef
  by_cases hb : s.batch.isEmpty
  · rw [if_pos hb]
  · rw [if_neg hb, if_neg (by simp [hff])]

/-- Fault-free, a run's progress-event list is exactly the sequence of
prefix statistics of its committed rows: the k-th event carries the count
`k` and the byte sum of the first `k` committed rows. -/
theorem run_events_exact (w : ScanWorker) (faults : Nat → Bool) (cancelAt : Option Nat)
    (tree : FSTree) (usage : Option (Nat × Nat)) (hff : ∀ n, faults n = false) :
    (ScanWorker.run w faults cancelAt tree usage).events =
      (List.range (ScanWorker.run w faults cancelAt tree usage).committed.length).map
        (fun i => (i + 1,
          sizeSum ((ScanWorker.run w faults cancelAt tree usage).committed.take (i + 1)))) := by
  obtain ⟨g1, g2, g3⟩ := scanDir_events w faults cancelAt hff [] tree initScanState rfl rfl
    (by simp [initScanState, dbRows])
  rw [run_events_eq w faults cancelAt tree usage hff,
    run_committed_eq w faults cancelAt tree usage hff, g3, g1]

/-- C5: a file whose base name matches some configured ignore pattern is
skipped entirely: no row committed for the scan carries that base name,
the terminal event counts exactly the committed rows, and the progress
events are exactly the prefix statistics of the committed rows — the k-th
event carries the count `k` and the byte sum of the first `k` committed
rows, none of which carry the matching name — so the ignored file appears
in no progress total.  Matching is applied to the base name only:
`fnmatchB` receives `f.name`, never a path. -/
theorem c5_ignored_name_excluded (w : ScanWorker) (faults : Nat → Bool)
    (cancelAt : Option Nat) (tree : FSTree) (usage : Option (Nat × Nat)) (name : String)
    (hff : ∀ n, faults n = false)
    (hm : (w.ignore_patterns.any fun pat => fnmatchB name pat) = true) :
    (∀ r ∈ (ScanWorker.run w faults cancelAt tree usage).committed, r.file_name ≠ name) ∧
    (ScanWorker.run w faults cancelAt tree usage).finished =
      some ((ScanWorker.run w faults cancelAt tree usage).committed.length,
        sizeSum (ScanWorker.run w faults cancelAt tree usage).committed) ∧
    (ScanWorker.run w faults cancelAt tree usage).events =
      (List.range (ScanWorker.run w faults cancelAt tree usage).committed.length).map
        (fun i => (i + 1,
          sizeSum ((ScanWorker.run w faults cancelAt tree usage).committed.take (i + 1)))) := by
  have h := run_inv w faults cancelAt tree usage
    (fun r => (w.ignore_patterns.any fun pat => fnmatchB r.file_name pat) = false) hff
    (fun comps' f sz mt _ hig _ => by simpa using hig)
  obtain ⟨h1, h2, h3, h4⟩ := h
  refine ⟨?_, h1, run_events_exact w faults cancelAt tree usage hff⟩
  intro r hr hname
  have hP := h3 r hr
  simp only [] at hP
  rw [hname] at hP
  rw [hP] at hm
  cases hm

/-- Witness for C5: pattern `*.tmp` with files `a.tmp` (3 bytes) and
`b.txt` (4 bytes) present; the scan commits only `b.txt`, the terminal
event counts it alone, and the one progress event carries the prefix
statistics of the committed rows. -/
theorem c5_ignored_name_excluded_witness :
    (∀ n, (fun _ => false : Nat → Bool) n = false) ∧
    (w5.ignore_patterns.any fun pat => fnmatchB "a.tmp" pat) = true ∧
    ((∀ r ∈ (ScanWorker.run w5 (fun _ => false) none tree5 (some (100, 40))).committed,
        r.file_name ≠ "a.tmp") ∧
      (ScanWorker.run w5 (fun _ => false) none tree5 (some (100, 40))).finished =
        some ((ScanWorker.run w5 (fun _ => false) none tree5 (some (100, 40))).committed.length,
          sizeSum (ScanWorker.run w5 (fun _ => false) none tree5 (some (100, 40))).committed) ∧
      (ScanWorker.run w5 (fun _ => false) none tree5 (some (100, 40))).events =
        (List.range
            (ScanWorker.run w5 (fun _ => false) none tree5 (some (100, 40))).committed.length).map
          (fun i => (i + 1,
            sizeSum ((ScanWorker.run w5 (fun _ => false) none tree5
              (some (100, 40))).committed.take (i + 1))))) ∧
    (ScanWorker.run w5 (fun _ => false) none tree5 (some (100, 40))).finished = some (1, 4) := by
  have hm : (w5.ignore_patterns.any fun pat => fnmatchB "a.tmp" pat) = true := by
    simp [w5, fnmatchB, lowerL, asciiLower, compileGlob, splitClassBody,
      findRBrack, globMatchToks]
  refine ⟨fun _ => rfl, hm,
    c5_ignored_name_excluded w5 (fun _ => false) none tree5 (some (100, 40)) "a.tmp"
      (fun _ => rfl) hm, ?_⟩
  simp [ScanWorker.run, ScanWorker.scanDir, ScanWorker.scanSubdirs, ScanWorker.processFiles,
    w5, tree5, initScanState, cancelSeen, relPath, fnmatchB, lowerL,
    asciiLower, compileGlob, splitClassBody, findRBrack, globMatchToks]

/-- C9: with `skipHidden` enabled, every directory entry whose name starts
with `.` is excluded — no committed row carries a hidden base name, and
the entire run outcome (rows, store log, progress events, terminal event)
equals the outcome on the tree with hidden files removed and hidden
directories pruned, so hidden directories are never descended into and
hidden files are neither recorded nor counted; with `skipHidden` disabled
(no ignore patterns, no cancellation) every statable file of the tree,
hidden entries included, is recorded like any other. -/
theorem c9_skip_hidden (w : ScanWorker) (faults : Nat → Bool) (cancelAt : Option Nat)
    (tree : FSTree) (usage : Option (Nat × Nat)) (hff : ∀ n, faults n = false) :
    (w.skip_hidden = true →
      (∀ r ∈ (ScanWorker.run w faults cancelAt tree usage).committed,
        startsWithDot r.file_name = false) ∧
      ScanWorker.run w faults cancelAt tree usage =
        ScanWorker.run w faults cancelAt (pruneHidden tree) usage) ∧
    (w.skip_hidden = false → w.ignore_patterns = [] → cancelAt = none →
      (ScanWorker.run w faults cancelAt tree usage).committed =
        allRows w.root_id [] tree) := by
  constructor
  · intro hsk
    constructor
    · have h := run_inv w faults cancelAt tree usage
        (fun r => startsWithDot r.file_name = false) hff
        (fun comps' f sz mt _ _ hhid => hhid hsk)
      exact h.2.2.1
    · unfold ScanWorker.run
      rw [scanDir_pruneHidden w faults cancelAt hsk]
  · intro hsk hpat hnone
    subst hnone
    rw [run_committed_eq w faults none tree usage hff,
      scanDir_rows_nofilter w faults hsk hpat hff]
    simp [dbRows, initScanState]

/-- Witness for C9: a tree with a hidden file and a hidden subdirectory,
scanned with `skip_hidden` enabled; additionally the concrete outcome
shows exactly the one visible file was recorded. -/
theorem c9_skip_hidden_witness :
    (∀ n, (fun _ => false : Nat → Bool) n = false) ∧
    ((w9.skip_hidden = true →
      (∀ r ∈ (ScanWorker.run w9 (fun _ => false) none tree9 (some (100, 40))).committed,
        startsWithDot r.file_name = false) ∧
      ScanWorker.run w9 (fun _ => false) none tree9 (some (100, 40)) =
        ScanWorker.run w9 (fun _ => false) none (pruneHidden tree9) (some (100, 40))) ∧
    (w9.skip_hidden = false → w9.ignore_patterns = [] → (none : Option Nat) = none →
      (ScanWorker.run w9 (fun _ => false) none tree9 (some (100, 40))).committed =
        allRows w9.root_id [] tree9)) ∧
    (ScanWorker.run w9 (fun _ => false) none tree9 (some (100, 40))).finished =
      some (1, 10) := by
  refine ⟨fun _ => rfl,
    c9_skip_hidden w9 (fun _ => false) none tree9 (some (100, 40)) (fun _ => rfl), ?_⟩
  simp [ScanWorker.run, ScanWorker.scanDir, ScanWorker.scanSubdirs, ScanWorker.processFiles,
    w9, tree9, ScanWorker.make, initScanState, cancelSeen, relPath, FSTree.name,
    startsWithDot]

/-- C2 (divergence witness): a store error raised by the mid-traversal
batch insert is caught by the per-file `except` handler — the traversal
does not terminate.  The failing insert leaves the batch unflushed (no
`batch.clear()`), skips only that file's progress emit, and processing
continues with the remaining files exactly as if no store error had
occurred; no failure outcome distinct from normal completion exists. -/
theorem c2_store_error_swallowed (w : ScanWorker) (faults : Nat → Bool) (cancelAt : Option Nat)
    (comps : List String) (f : FSFile) (rest : List FSFile) (s : ScanState)
    (sz : Nat) (mt : Int) (row : FileRow)
    (hrow : row = { root_id := w.root_id, file_name := f.name,
                    relative_path := relPath comps f.name, size := sz, modified_time := mt })
    (hc : cancelSeen cancelAt s.checks = false)
    (hig : (w.ignore_patterns.any fun pat => fnmatchB f.name pat) = false)
    (hmeta : f.meta = some (sz, mt))
    (hbig : (s.batch ++ [row]).length ≥ 1000)
    (hfault : faults s.inserts = true) :
    ScanWorker.processFiles w faults cancelAt comps (f :: rest) s =
      ScanWorker.processFiles w faults cancelAt comps rest
        { s with checks := s.checks + 1,
                 batch := s.batch ++ [row],
                 total_files := s.total_files + 1,
                 total_bytes := s.total_bytes + sz,
                 inserts := s.inserts + 1 } := by
  subst hrow
  rw [ScanWorker.processFiles]
  rw [if_neg (by simp [hc])]
  rw [hig]
  simp only [Bool.false_eq_true, if_false, hmeta]
  rw [if_pos hbig, if_pos hfault]

/-- Witness for C2: a batch one row short of the flush threshold; the
1000th file triggers an insert that raises, and processing continues. -/
theorem c2_store_error_swallowed_witness :
    c2Row = ({ root_id := w4.root_id, file_name := "f", relative_path := relPath [] "f",
                size := 2, modified_time := 3 } : FileRow) ∧
    cancelSeen none c2State.checks = false ∧
    (w4.ignore_patterns.any fun pat => fnmatchB "f" pat) = false ∧
    (c2State.batch ++ [c2Row]).length ≥ 1000 ∧
    (fun _ => true : Nat → Bool) c2State.inserts = true ∧
    ScanWorker.processFiles w4 (fun _ => true) none [] [⟨"f", some (2, 3)⟩] c2State =
      ScanWorker.processFiles w4 (fun _ => true) none [] []
        { c2State with checks := c2State.checks + 1,
                       batch := c2State.batch ++ [c2Row],
                       total_files := c2State.total_files + 1,
                       total_bytes := c2State.total_bytes + 2,
                       inserts := c2State.inserts + 1 } := by
  have hrow : c2Row = ({ root_id := w4.root_id, file_name := "f",
                         relative_path := relPath [] "f", size := 2,
                         modified_time := 3 } : FileRow) := rfl
  have hc : cancelSeen none c2State.checks = false := rfl
  have hig : (w4.ignore_patterns.any fun pat => fnmatchB "f" pat) = false := by
    simp [w4, ScanWorker.make]
  have hbig : (c2State.batch ++ [c2Row]).length ≥ 1000 := by
    simp only [c2State, List.length_append, List.length_replicate, List.length_cons,
      List.length_nil]
    omega
  have hfault : (fun _ => true : Nat → Bool) c2State.inserts = true := rfl
  exact ⟨hrow, hc, hig, hbig, hfault,
    c2_store_error_swallowed w4 (fun _ => true) none [] ⟨"f", some (2, 3)⟩ [] c2State 2 3
      c2Row hrow hc hig rfl hbig hfault⟩

/-- Once the cancel flag is set (and stays set), the pause wait loop exits
within a bounded number of ticks. -/
theorem pauseWait_exits (pause cancel : Nat → Bool)
    (hmono : ∀ a b, a ≤ b → cancel a = true → cancel b = true) :
    ∀ (k t : Nat), cancel (t + k) = true →
      ∃ texit, ScanWorker.pauseWait pause cancel t (k + 1) = some texit ∧
        (pause texit = false ∨ cancel texit = true) := by
  intro k
  induction k with
  | zero =>
    intro t hc
    have hct : cancel t = true := by simpa using hc
    refine ⟨t, ?_, Or.inr hct⟩
    simp [ScanWorker.pauseWait, hct]
  | succ k ih =>
    intro t hc
    by_cases hcond : (pause t && !cancel t) = true
    · have hstep : ScanWorker.pauseWait pause cancel t (k + 1 + 1) =
          ScanWorker.pauseWait pause cancel (t + 1) (k + 1) := by
        rw [ScanWorker.pauseWait, if_pos hcond]
      rw [hstep]
      refine ih (t + 1) ?_
      have harith : t + 1 + k = t + (k + 1) := by omega
      rw [harith]
      exact hc
    · refine ⟨t, ?_, ?_⟩
      · rw [ScanWorker.pauseWait, if_neg hcond]
      · by_cases hp : pause t = true
        · right
          by_cases hcx : cancel t = true
          · exact hcx
          · exact absurd (by simp [hp, Bool.eq_false_iff.mpr hcx] :
              (pause t && !cancel t) = true) hcond
        · left
          simpa using hp

/-- C10: pausing can never block cancellation.  With the pause flag set
and never cleared, setting the cancel flag at time `t0` makes the wait
loop exit (with the cancel flag observed), and every scan run still
performs its terminal actions — the tail-batch flush is reflected in the
terminal totals, the scan-completion record is the last store action, and
the single terminal event is emitted. -/
theorem c10_pause_never_blocks_cancel (pause cancel : Nat → Bool) (t0 : Nat)
    (hpause : ∀ t, pause t = true)
    (hmono : ∀ a b, a ≤ b → cancel a = true → cancel b = true)
    (hc : cancel t0 = true) :
    (∀ t, t ≤ t0 → ∃ texit,
      ScanWorker.pauseWait pause cancel t (t0 - t + 1) = some texit ∧
        cancel texit = true) ∧
    (∀ (w : ScanWorker) (faults : Nat → Bool) (cancelAt : Option Nat) (tree : FSTree)
      (usage : Option (Nat × Nat)), (∀ n, faults n = false) →
      (ScanWorker.run w faults cancelAt tree usage).finished =
        some ((ScanWorker.run w faults cancelAt tree usage).committed.length,
          sizeSum (ScanWorker.run w faults cancelAt tree usage).committed) ∧
      (ScanWorker.run w faults cancelAt tree usage).log.getLast? =
        some (StoreAction.updateRootScan w.root_id (usage.map Prod.fst)
          (usage.map Prod.snd))) := by
  constructor
  · intro t ht
    obtain ⟨texit, hx, hdisj⟩ := pauseWait_exits pause cancel hmono (t0 - t) t (by
      have harith : t + (t0 - t) = t0 := by omega
      rw [harith]
      exact hc)
    refine ⟨texit, hx, ?_⟩
    rcases hdisj with hp | hcx
    · rw [hpause texit] at hp
      cases hp
    · exact hcx
  · intro w faults cancelAt tree usage hff
    have h := run_inv w faults cancelAt tree usage (fun _ => True) hff
      (fun _ _ _ _ _ _ _ => trivial)
    exact ⟨h.1, h.2.1⟩

/-- Witness for C10: pause always set, cancel set from time 3 on; the wait
loop entered at time 1 exits at time 3 with the cancel flag seen, and a
concrete cancelled run still ends with the completion record and terminal
event. -/
theorem c10_pause_never_blocks_cancel_witness :
    (∀ t, (fun _ => true : Nat → Bool) t = true) ∧
    (∀ a b, a ≤ b → (fun t => decide (3 ≤ t)) a = true → (fun t => decide (3 ≤ t)) b = true) ∧
    (fun t => decide (3 ≤ t)) 3 = true ∧
    ((∀ t, t ≤ 3 → ∃ texit,
      ScanWorker.pauseWait (fun _ => true) (fun t => decide (3 ≤ t)) t (3 - t + 1) =
          some texit ∧
        (fun t => decide (3 ≤ t)) texit = true) ∧
    (∀ (w : ScanWorker) (faults : Nat → Bool) (cancelAt : Option Nat) (tree : FSTree)
      (usage : Option (Nat × Nat)), (∀ n, faults n = false) →
      (ScanWorker.run w faults cancelAt tree usage).finished =
        some ((ScanWorker.run w faults cancelAt tree usage).committed.length,
          sizeSum (ScanWorker.run w faults cancelAt tree usage).committed) ∧
      (ScanWorker.run w faults cancelAt tree usage).log.getLast? =
        some (StoreAction.updateRootScan w.root_id (usage.map Prod.fst)
          (usage.map Prod.snd)))) := by
  have hpause : ∀ t, (fun _ => true : Nat → Bool) t = true := fun _ => rfl
  have hmono : ∀ a b, a ≤ b → (fun t => decide (3 ≤ t)) a = true →
      (fun t => decide (3 ≤ t)) b = true := by
    intro a b hab ha
    simp only [decide_eq_true_eq] at ha ⊢
    omega
  have hc : (fun t => decide (3 ≤ t)) 3 = true := by decide
  exact ⟨hpause, hmono, hc,
    c10_pause_never_blocks_cancel (fun _ => true) (fun t => decide (3 ≤ t)) 3 hpause hmono hc⟩

end DriveCatalogue
